import Mathlib

/-!
A verification development for the core of the `hypermine` hyperbolic voxel
engine (`common/src/node.rs`, `common/src/chunk_loader.rs`,
`common/src/graph_collision.rs`, `common/src/character_controller.rs`,
`common/src/math.rs`).

The Rust data model and operations are shallowly embedded: pure functions
become Lean functions, `&mut self` methods become explicit state passing,
fallible or panicking code returns `Option`.  Components of the repository
that are only declared here (the dodecahedral adjacency tables of `dodeca.rs`,
the arena graph of `graph.rs`, the world-generation parameters of
`worldgen.rs`, the material list of `world.rs`) are modelled from the
specification as abstract parameters of the embedding, as noted at each
definition.
-/

namespace Hypermine

/-- Modelled from the spec: the material list of `world.rs` is not part of the
embedded sources; all that matters for the embedded operations is that there
is a distinguished `Void` material and at least one other material. -/
inductive Material where
  | Void
  | Dirt
  | Stone
  | Sand
  deriving DecidableEq, Repr

instance : Inhabited Material := ⟨Material.Void⟩

/-- `Coords` from `node.rs`: coordinates for a discrete voxel within a chunk,
not including margins.  The Rust `u8` components are modelled as `Nat`
(the arithmetic in `to_index` is performed in `usize` after widening, so no
wraparound can occur). -/
structure Coords where
  x : Nat
  y : Nat
  z : Nat
  deriving DecidableEq, Repr

/-- `Coords::to_index` from `node.rs`: the array index in `VoxelData`
corresponding to these coordinates, for the padded array of side length
`chunk_size + 2`. -/
def Coords.to_index (c : Coords) (chunk_size : Nat) : Nat :=
  let chunk_size_with_margin := chunk_size + 2
  (c.x + 1)
    + (c.y + 1) * chunk_size_with_margin
    + (c.z + 1) * chunk_size_with_margin ^ 2

/-- `VoxelData` from `node.rs`: either a uniform `Solid` material or a
`Dense` array of `(dimension + 2)^3` materials (one-voxel margin on every
face). -/
inductive VoxelData where
  | Solid (mat : Material)
  | Dense (data : List Material)
  deriving DecidableEq, Repr

/-- The dense array exposed by `VoxelData::data_mut` in `node.rs`: a `Dense`
chunk exposes its array, while a `Solid` chunk is first promoted to a dense
array of `(dimension + 2)^3` copies of its material. -/
def VoxelData.data_mut_array (v : VoxelData) (dimension : Nat) : List Material :=
  match v with
  | .Dense d => d
  | .Solid mat => List.replicate ((dimension + 2) ^ 3) mat

/-- The `VoxelData` state after `VoxelData::data_mut` returns: always `Dense`,
holding `data_mut_array`. -/
def VoxelData.data_mut_state (v : VoxelData) (dimension : Nat) : VoxelData :=
  .Dense (v.data_mut_array dimension)

/-- `VoxelData::is_solid` from `node.rs`. -/
def VoxelData.is_solid : VoxelData → Bool
  | .Dense _ => false
  | .Solid _ => true

/-- `VoxelData::get` from `node.rs` (panics on an out-of-range dense index;
the total embedding returns the padding default there, which no theorem
below relies on). -/
def VoxelData.get (v : VoxelData) (index : Nat) : Material :=
  match v with
  | .Dense d => d.getD index default
  | .Solid mat => mat

/-- `VoxelData::clear_margin` from `node.rs`: promote to dense, then walk the
whole padded cube and overwrite every margin cell (any coordinate equal to
`0` or `lwm - 1`) with `Void`. -/
def VoxelData.clear_margin (v : VoxelData) (dimension : Nat) : VoxelData :=
  let lwm := dimension + 2
  .Dense <| (List.range lwm).foldl (fun dataz z =>
    (List.range lwm).foldl (fun datay y =>
      (List.range lwm).foldl (fun datax x =>
        if x = 0 ∨ x = lwm - 1 ∨ y = 0 ∨ y = lwm - 1 ∨ z = 0 ∨ z = lwm - 1 then
          datax.set (x + y * lwm + z * lwm ^ 2) Material.Void
        else
          datax) datay) dataz)
    (v.data_mut_array dimension)

/-- Innermost (`x`) loop of `VoxelData::from_serializable` in `node.rs`:
the state is the partially filled padded array together with the running
`input_index`. -/
def fromSerX (ser : List Material) (d y z n : Nat)
    (st : List Material × Nat) : List Material × Nat :=
  (List.range n).foldl (fun accx x =>
    (accx.1.set ((Coords.mk x y z).to_index d) (ser.getD accx.2 default),
      accx.2 + 1)) st

/-- Middle (`y`) loop of `VoxelData::from_serializable`. -/
def fromSerY (ser : List Material) (d z n : Nat)
    (st : List Material × Nat) : List Material × Nat :=
  (List.range n).foldl (fun accy y => fromSerX ser d y z d accy) st

/-- Outermost (`z`) loop of `VoxelData::from_serializable`. -/
def fromSerZ (ser : List Material) (d n : Nat)
    (st : List Material × Nat) : List Material × Nat :=
  (List.range n).foldl (fun accz z => fromSerY ser d z d accz) st

/-- The complete filling loop of `VoxelData::from_serializable`, started on a
`Void`-filled padded cube with `input_index = 0`. -/
def from_serializable_loop (ser : List Material) (dimension : Nat) :
    List Material × Nat :=
  fromSerZ ser dimension dimension
    (List.replicate ((dimension + 2) ^ 3) Material.Void, 0)

/-- `VoxelData::from_serializable` from `node.rs`: rejects a payload whose
length is not `dimension^3`, otherwise fills the interior of a `Void`-padded
dense cube with the payload in x-fastest order. -/
def VoxelData.from_serializable (ser : List Material) (dimension : Nat) :
    Option VoxelData :=
  if ser.length ≠ dimension ^ 3 then none
  else some (.Dense (from_serializable_loop ser dimension).1)

/-- Innermost (`x`) loop of `VoxelData::to_serializable` in `node.rs`:
pushes the interior voxels of one grid row onto the output vector. -/
def toSerX (data : List Material) (d y z n : Nat) (acc : List Material) :
    List Material :=
  (List.range n).foldl (fun accx x =>
    accx ++ [data.getD ((Coords.mk x y z).to_index d) default]) acc

/-- Middle (`y`) loop of `VoxelData::to_serializable`. -/
def toSerY (data : List Material) (d z n : Nat) (acc : List Material) :
    List Material :=
  (List.range n).foldl (fun accy y => toSerX data d y z d accy) acc

/-- Outermost (`z`) loop of `VoxelData::to_serializable`. -/
def toSerZ (data : List Material) (d n : Nat) (acc : List Material) :
    List Material :=
  (List.range n).foldl (fun accz z => toSerY data d z d accz) acc

/-- `VoxelData::to_serializable` from `node.rs`: reads the interior of a dense
cube back out in x-fastest order; panics (here: `none`) on `Solid` data. -/
def VoxelData.to_serializable (v : VoxelData) (dimension : Nat) :
    Option (List Material) :=
  match v with
  | .Solid _ => none
  | .Dense data => some (toSerZ data dimension dimension [])

/-! ### The cell graph and chunk store (`node.rs`)

`graph.rs` and `dodeca.rs` are not part of the embedded sources; following
the spec (§3, §4.2), `NodeId` is an opaque arena handle, `Side` is a fixed
enumeration of 12 face-directions, `Vertex` a fixed enumeration of 20 cell
corners, and the per-vertex tables `adjacent_vertices` / `canonical_sides`
are abstract fixed tables.  The arena's `neighbor` relation is carried as an
abstract function on the graph value. -/

/-- `NodeId`: opaque handle into the cell graph (modelled as `Nat`). -/
abbrev NodeId := Nat

/-- Modelled from the spec: `Side` of `dodeca.rs` — one of the 12
face-directions of a dodecahedral cell. -/
abbrev Side := Fin 12

/-- Modelled from the spec: `Vertex` of `dodeca.rs` — one of the 20 cell
corners, each owning one chunk. -/
abbrev Vertex := Fin 20

/-- `SlotId` of `lru_slab.rs`: opaque surface-cache handle. -/
abbrev SlotId := Nat

/-- Modelled from the spec: the per-vertex combinatorial tables of
`dodeca.rs` — `Vertex::adjacent_vertices` (the three vertices whose chunks
share a face with this vertex's chunk, within the same cell) and
`Vertex::canonical_sides` (the three sides bounding this vertex, in
canonical order). -/
structure Dodeca where
  adjacent_vertices : Vertex → Fin 3 → Vertex
  canonical_sides : Vertex → Fin 3 → Side

/-- `ChunkId` from `node.rs`: the addressable unit of voxel storage. -/
structure ChunkId where
  node : NodeId
  vertex : Vertex
  deriving DecidableEq, Repr

/-- `Chunk` from `node.rs`: the chunk lifecycle state machine. -/
inductive Chunk where
  | Fresh
  | Generating
  | Populated (voxels : VoxelData) (modified : Bool)
      (surface : Option SlotId) (old_surface : Option SlotId)

/-- The per-node payload from `node.rs` (`Node`); the world-generation state
is irrelevant to every embedded operation and is omitted. -/
structure NodeData where
  chunks : Vertex → Chunk

/-- The state of the `Graph` arena of `graph.rs` as seen by the operations of
`node.rs`: the chunk layout dimension, the node arena, and the `neighbor`
relation.  The `dimension` plays the role of `self.layout().dimension`. -/
structure Graph where
  dimension : Nat
  nodes : NodeId → Option NodeData
  neighbor : NodeId → Side → Option NodeId

/-- `CoordDirection` from `node.rs`. -/
inductive CoordDirection where
  | Plus
  | Minus
  deriving DecidableEq, Repr

/-- The iteration order of `CoordAxis::iter` × `CoordDirection::iter` as used
by `populate_chunk` and `clear_adjacent_solid_chunk_margins` in `node.rs`. -/
def axisDirPairs : List (Fin 3 × CoordDirection) :=
  [(0, .Plus), (0, .Minus), (1, .Plus), (1, .Minus), (2, .Plus), (2, .Minus)]

/-- `Graph::get_chunk` from `node.rs`. -/
def Graph.get_chunk (g : Graph) (c : ChunkId) : Option Chunk :=
  (g.nodes c.node).map fun nd => nd.chunks c.vertex

/-- The effect of writing through `Graph::get_chunk_mut` from `node.rs`:
replace the chunk stored at `c` (no-op when the node is absent; all callers
below separately account for the panic of their `unwrap`). -/
def Graph.set_chunk (g : Graph) (c : ChunkId) (ch : Chunk) : Graph :=
  { g with nodes := fun n =>
      if n = c.node then
        (g.nodes n).map fun nd =>
          { nd with chunks := fun v => if v = c.vertex then ch else nd.chunks v }
      else g.nodes n }

/-- `Graph::get_chunk_neighbor` from `node.rs`: one chunk over along a
coordinate axis — the adjacent vertex of the same node in the `Plus`
direction, the same vertex of the neighboring node in the `Minus`
direction. -/
def Graph.get_chunk_neighbor (D : Dodeca) (g : Graph) (c : ChunkId)
    (coord_axis : Fin 3) (coord_direction : CoordDirection) : Option ChunkId :=
  match coord_direction with
  | .Plus => some ⟨c.node, D.adjacent_vertices c.vertex coord_axis⟩
  | .Minus =>
    (g.neighbor c.node (D.canonical_sides c.vertex coord_axis)).map
      fun n => ⟨n, c.vertex⟩

/-- `Graph::clear_solid_chunk_margin` from `node.rs`: fails (`false`) on a
not-yet-populated chunk, clears the margin and retires the surface handle of
a `Solid` populated chunk, and succeeds without changes otherwise. -/
def Graph.clear_solid_chunk_margin (g : Graph) (c : ChunkId) : Graph × Bool :=
  match g.get_chunk c with
  | some (.Populated voxels modified surface old_surface) =>
    if voxels.is_solid then
      (g.set_chunk c (.Populated (voxels.clear_margin g.dimension) modified
        none (surface.or old_surface)), true)
    else (g, true)
  | _ => (g, false)

/-- `Graph::clear_adjacent_solid_chunk_margins` from `node.rs`: walk the six
potential chunk-neighbors in axis-major order and clear each existing one's
solid margin. -/
def Graph.clear_adjacent_solid_chunk_margins (D : Dodeca) (g : Graph)
    (c : ChunkId) : Graph :=
  axisDirPairs.foldl (fun g' p =>
    match Graph.get_chunk_neighbor D g' c p.1 p.2 with
    | some chunk_id => (g'.clear_solid_chunk_margin chunk_id).1
    | none => g') g

/-- The neighbor-inspection loop at the top of `Graph::populate_chunk` in
`node.rs`: walk the six potential chunk-neighbors in order and report whether
any is a `Populated` chunk with its `modified` flag set (with early exit,
like the labelled `break`).  Indexing a neighbor whose node is absent from
the arena panics in the source (`self[chunk_id]`); the embedding returns
`none` there. -/
def Graph.any_modified_neighbor (D : Dodeca) (g : Graph) (c : ChunkId) :
    List (Fin 3 × CoordDirection) → Option Bool
  | [] => some false
  | p :: rest =>
    match Graph.get_chunk_neighbor D g c p.1 p.2 with
    | none => g.any_modified_neighbor D c rest
    | some chunk_id =>
      match g.get_chunk chunk_id with
      | none => none
      | some (.Populated _ true _ _) => some true
      | some _ => g.any_modified_neighbor D c rest

/-- `Graph::populate_chunk` from `node.rs`: clear the incoming data's margin
if it is solid next to a modified neighbor, clear adjacent solid chunks'
margins if the incoming data is modified, then commit the chunk as
`Populated` (the final `unwrap` panics — `none` — when the node is absent
from the arena). -/
def Graph.populate_chunk (D : Dodeca) (g : Graph) (c : ChunkId)
    (new_data : VoxelData) (modified : Bool) : Option Graph :=
  match (if new_data.is_solid then
      (g.any_modified_neighbor D c axisDirPairs).map fun b =>
        if b then new_data.clear_margin g.dimension else new_data
    else some new_data) with
  | none => none
  | some new_data =>
    let g := if modified then g.clear_adjacent_solid_chunk_margins D c else g
    match g.nodes c.node with
    | none => none
    | some _ => some (g.set_chunk c (.Populated new_data modified none none))

/-- `BlockUpdate` from `proto.rs`, with the chunk address already resolved to
a `ChunkId` as `update_block` consumes it. -/
structure BlockUpdate where
  chunk_id : ChunkId
  coords : Coords
  new_material : Material

/-- `Graph::update_block` from `node.rs`: fails (`false`, no-op) when the
chunk is not populated; otherwise clears a solid chunk's margin, writes the
voxel (panicking — `none` — if the asserted in-bounds index check fails),
marks the chunk modified, retires the surface handle, and clears adjacent
solid chunks' margins. -/
def Graph.update_block (D : Dodeca) (g : Graph) (bu : BlockUpdate) :
    Option (Graph × Bool) :=
  let dimension := g.dimension
  match g.get_chunk bu.chunk_id with
  | some (.Populated voxels _modified surface old_surface) =>
    let voxels := if voxels.is_solid then voxels.clear_margin dimension
      else voxels
    let arr := voxels.data_mut_array dimension
    if bu.coords.to_index dimension < arr.length then
      let g := g.set_chunk bu.chunk_id (.Populated
        (.Dense (arr.set (bu.coords.to_index dimension) bu.new_material))
        true none (surface.or old_surface))
      some (g.clear_adjacent_solid_chunk_margins D bu.chunk_id, true)
    else none
  | _ => some (g, false)

/-! ### The chunk loader (`chunk_loader.rs`)

The tokio channels of `ChunkLoader` are modelled as FIFO lists: `sendQueue`
is the bounded input channel, `processing` the set of loaded-but-undelivered
results held by worker tasks, and `recvQueue` the bounded output channel.
`worldgen.rs` is not part of the embedded sources; `ChunkParams` is modelled
from the spec as the data the voxel generator needs: the vertex it will
report back (`params.chunk()`) and the voxel payload its background run will
produce (`params.generate_voxels()`). -/

/-- Modelled from the spec: `ChunkParams` of `worldgen.rs`, reduced to the
two observations the loader makes of it. -/
structure ChunkParams where
  chunk : Vertex
  voxels : VoxelData

/-- `ChunkDesc` from `chunk_loader.rs`. -/
structure ChunkDesc where
  node : NodeId
  params : ChunkParams

/-- `LoadedChunk` from `chunk_loader.rs`. -/
structure LoadedChunk where
  node : NodeId
  chunk : Vertex
  voxels : VoxelData

/-- What the background task produces for one description. -/
def ChunkDesc.toLoaded (d : ChunkDesc) : LoadedChunk :=
  ⟨d.node, d.params.chunk, d.params.voxels⟩

/-- `ChunkLoader` from `chunk_loader.rs`, with its two bounded channels and
the worker tasks in between made explicit. -/
structure ChunkLoader where
  capacity : Nat
  fill : Nat
  sendQueue : List ChunkDesc
  processing : List LoadedChunk
  recvQueue : List LoadedChunk

/-- The channel-occupancy invariant of the loader: every unit of `fill`
corresponds to exactly one request somewhere between submission and
delivery, and `fill` never exceeds `capacity`. -/
def ChunkLoader.wf (l : ChunkLoader) : Prop :=
  l.sendQueue.length + l.processing.length + l.recvQueue.length = l.fill ∧
  l.fill ≤ l.capacity

/-- `ChunkLoader::load` from `chunk_loader.rs`: refuse when the in-flight
counter is full; otherwise increment it and try to enqueue on the bounded
input channel, rolling the counter back if the channel is full. -/
def ChunkLoader.load (l : ChunkLoader) (node : NodeId) (params : ChunkParams) :
    ChunkLoader × Bool :=
  if l.fill = l.capacity then (l, false)
  else if l.sendQueue.length = l.capacity then (l, false)
  else ({ l with
            fill := l.fill + 1
            sendQueue := l.sendQueue ++ [⟨node, params⟩] }, true)

/-- The actions of the background generation pipeline of
`ChunkLoader::new`: the dispatcher accepts a description from the input
channel, and a finished task delivers its result (in any order) to the
output channel whenever that channel has room. -/
inductive WorkerStep : ChunkLoader → ChunkLoader → Prop
  | accept (l : ChunkLoader) (d : ChunkDesc) (rest : List ChunkDesc)
      (h : l.sendQueue = d :: rest) :
      WorkerStep l { l with
        sendQueue := rest
        processing := l.processing ++ [d.toLoaded] }
  | complete (l : ChunkLoader) (pre post : List LoadedChunk)
      (item : LoadedChunk) (h : l.processing = pre ++ item :: post)
      (hroom : l.recvQueue.length < l.capacity) :
      WorkerStep l { l with
        processing := pre ++ post
        recvQueue := l.recvQueue ++ [item] }

/-- The drain loop of `ChunkLoader::drive` from `chunk_loader.rs`: each
received result decrements `fill` and commits the chunk as `Populated`
(`none` models the panic of the `unwrap` on a node absent from the arena;
`chunk_loader.rs` predates the `modified`/`old_surface` chunk fields, so
freshly generated data is committed unmodified). -/
def drive_go : List LoadedChunk → Nat → Graph → Option (Nat × Graph)
  | [], fill, g => some (fill, g)
  | chunk :: rest, fill, g =>
    match g.nodes chunk.node with
    | none => none
    | some _ =>
      drive_go rest (fill - 1)
        (g.set_chunk ⟨chunk.node, chunk.chunk⟩
          (.Populated chunk.voxels false none none))

/-- `ChunkLoader::drive` from `chunk_loader.rs`: non-blocking drain of every
completed result. -/
def ChunkLoader.drive (l : ChunkLoader) (g : Graph) :
    Option (ChunkLoader × Graph) :=
  (drive_go l.recvQueue l.fill g).map fun r =>
    ({ l with
        recvQueue := []
        fill := r.1 }, r.2)

/-- The order in which `Vertex::iter()` walks a node's twenty chunks. -/
def vertexList : List Vertex := List.finRange 20

/-- The per-node inner loop of `ChunkLoader::load_chunks` from
`chunk_loader.rs`: for every `Fresh` chunk of the node whose generation
parameters are computable, submit a request, and mark the chunk `Generating`
only if the submission succeeded (`none` models the panic of the `expect` on
an unpopulated node). -/
def load_chunks_go (mkParams : Nat → Graph → NodeId → Vertex → Option ChunkParams)
    (dimension : Nat) (node : NodeId) :
    List Vertex → ChunkLoader → Graph → Option (ChunkLoader × Graph)
  | [], l, g => some (l, g)
  | v :: rest, l, g =>
    match g.nodes node with
    | none => none
    | some nd =>
      match nd.chunks v with
      | .Fresh =>
        match mkParams dimension g node v with
        | some params =>
          match l.load node params with
          | (l', true) =>
            load_chunks_go mkParams dimension node rest l'
              (g.set_chunk ⟨node, v⟩ .Generating)
          | (l', false) => load_chunks_go mkParams dimension node rest l' g
        | none => load_chunks_go mkParams dimension node rest l g
      | _ => load_chunks_go mkParams dimension node rest l g

/-- `ChunkLoader::load_chunks` from `chunk_loader.rs`, over an explicit list
of node ids (`ChunkParams::new` of the absent `worldgen.rs` is passed as the
abstract parameter `mkParams`). -/
def ChunkLoader.load_chunks
    (mkParams : Nat → Graph → NodeId → Vertex → Option ChunkParams)
    (dimension : Nat) (l : ChunkLoader) (g : Graph) (nodes : List NodeId) :
    Option (ChunkLoader × Graph) :=
  nodes.foldlM (fun st node =>
    load_chunks_go mkParams dimension node vertexList st.1 st.2) (l, g)

/-- Iterated submission: submit a batch, reporting whether every single
submission succeeded. -/
def ChunkLoader.loadN : ChunkLoader → List (NodeId × ChunkParams) →
    ChunkLoader × Bool
  | l, [] => (l, true)
  | l, (n, p) :: rest =>
    match l.load n p with
    | (l', ok) =>
      match ChunkLoader.loadN l' rest with
      | (l'', ok') => (l'', ok && ok')

/-- A tiny concrete instance of the dodeca tables, used to evaluate the
theorems below on closed inputs. -/
def D0 : Dodeca := ⟨fun v _ => v + 1, fun _ _ => 0⟩

/-- A node all of whose chunks are populated, solid and modified. -/
def nd0 : NodeData :=
  ⟨fun _ => Chunk.Populated (VoxelData.Solid Material.Dirt) true none none⟩

/-- A one-node graph of dimension 1 with no cross-node neighbors. -/
def g0 : Graph := ⟨1, fun n => if n = 0 then some nd0 else none, fun _ _ => none⟩

/-- A concrete block update aimed at the origin chunk of `g0`. -/
def bu0 : BlockUpdate := ⟨⟨0, 0⟩, ⟨0, 0, 0⟩, Material.Stone⟩

/-- Whether a chunk is `Populated` with its `modified` flag set (the pattern
`Chunk::Populated { modified: true, .. }` of `populate_chunk`). -/
def Chunk.isPopulatedModified : Chunk → Bool
  | .Populated _ true _ _ => true
  | _ => false

/-- Whether a chunk is in the `Populated` state. -/
def Chunk.isPopulated : Chunk → Bool
  | .Populated _ _ _ _ => true
  | _ => false

/-- Whether the chunk stored at `c` is `Populated` with `modified` set. -/
def Graph.chunkPopulatedModified (g : Graph) (c : ChunkId) : Bool :=
  match g.get_chunk c with
  | some ch => ch.isPopulatedModified
  | none => false

/-- Whether the chunk stored at `c` is `Populated`. -/
def Graph.chunkPopulated (g : Graph) (c : ChunkId) : Bool :=
  match g.get_chunk c with
  | some ch => ch.isPopulated
  | none => false

/-- Whether the neighbor of `c` along `p` is a populated-and-modified chunk
(the loop body condition of `populate_chunk`). -/
def Graph.neighborModified (D : Dodeca) (g : Graph) (c : ChunkId)
    (p : Fin 3 × CoordDirection) : Bool :=
  match Graph.get_chunk_neighbor D g c p.1 p.2 with
  | some chunk_id => g.chunkPopulatedModified chunk_id
  | none => false

/-- Whether indexing the neighbor of `c` along `p` cannot panic: either there
is no neighbor, or the neighbor's node is present in the arena. -/
def Graph.neighborLookupSafe (D : Dodeca) (g : Graph) (c : ChunkId)
    (p : Fin 3 × CoordDirection) : Bool :=
  match Graph.get_chunk_neighbor D g c p.1 p.2 with
  | some chunk_id => (g.get_chunk chunk_id).isSome
  | none => true

/-! ### Graph collision (`graph_collision.rs`)

`sphere_cast` performs a breadth-first search over chunks.  Its control flow
(queue, visited set, hit bookkeeping, `OutOfBounds` exits) is embedded
faithfully; the floating-point geometry it consults — the per-chunk
`chunk_sphere_cast` of the absent `chunk_collision.rs`, the Klein-coordinate
boundary comparisons of the swept segment's endpoints, the bounding-sphere
rejection, and the reflection/normal transforms of the absent `dodeca.rs` —
is abstracted into the `CastGeom` parameter below, one field per geometric
computation of the source, with tanh-distances carried exactly as rationals.
`M` is the type of accumulated node transforms, `N` of hit normals. -/

/-- Modelled from the spec and the source's geometric subexpressions: the
geometric oracles `sphere_cast` consults.  Each field corresponds to one
computation of `graph_collision.rs` (or of the absent `chunk_collision.rs`):

* `chunkCast voxels vertex m t` — `chunk_sphere_cast(radius, voxels, layout,
  node_to_dual(vertex) * m * ray, t)`: the closest in-chunk surface hit
  within tanh-distance `t`, if any (spec §4.5 contract);
* `lowerTrigger vertex m t a` — whether either Klein endpoint of the swept
  segment lies at or below `klein_lower_boundary` on axis `a`;
* `upperTrigger vertex m t a` — likewise for `klein_upper_boundary`;
* `nodeReject vertex m t a` — the crude bounding-sphere test: `true` when
  `ray_node_distance - ray_length > BOUNDING_SPHERE_RADIUS + radius`, so the
  neighboring node cannot be hit and is skipped;
* `sideRefl side m` — `side.reflection() * m`;
* `hitNormal m vertex n` — `mtranspose(m) * vertex.dual_to_node() * n`. -/
structure CastGeom (M N : Type) where
  chunkCast : VoxelData → Vertex → M → ℚ → Option (ℚ × N)
  lowerTrigger : Vertex → M → ℚ → Fin 3 → Bool
  upperTrigger : Vertex → M → ℚ → Fin 3 → Bool
  nodeReject : Vertex → M → ℚ → Fin 3 → Bool
  sideRefl : Side → M → M
  hitNormal : M → Vertex → N → N

/-- `SphereCastError` from `graph_collision.rs`. -/
inductive SphereCastError where
  | OutOfBounds
  deriving DecidableEq, Repr

/-- `GraphCastHit` from `graph_collision.rs`: shrinking tanh distance, chunk
of the hit, and accumulated-frame normal. -/
structure GraphCastHit (N : Type) where
  tanh_distance : ℚ
  chunk : ChunkId
  normal : N

/-- The breadth-first search state of `sphere_cast`: the best hit so far,
the visited set, and the chunk queue with accumulated node transforms. -/
structure CastState (M N : Type) where
  hit : Option (GraphCastHit N)
  visited : List ChunkId
  queue : List (ChunkId × M)

/-- `hit.map_or(tanh_distance, |hit| hit.tanh_distance)`: the effective
search distance of the current iteration. -/
def currentOf {M N : Type} (s : CastState M N) (tanh_distance : ℚ) : ℚ :=
  match s.hit with
  | some h => h.tanh_distance
  | none => tanh_distance

/-- `Vertex::A`, the vertex whose chunk the search starts in. -/
def vertexA : Vertex := 0

/-- The lower-boundary (neighboring node) half of one axis check of
`sphere_cast`: on a trigger, either skip via the bounding-sphere rejection,
fail (`none`) on a missing neighbor node, or enqueue the neighboring node's
chunk if not yet visited. -/
def lowerStep {M N : Type} (D : Dodeca) (geom : CastGeom M N) (g : Graph)
    (chunk : ChunkId) (m : M) (current : ℚ) (a : Fin 3)
    (visited : List ChunkId) (queue : List (ChunkId × M)) :
    Option (List ChunkId × List (ChunkId × M)) :=
  if geom.lowerTrigger chunk.vertex m current a then
    if geom.nodeReject chunk.vertex m current a then some (visited, queue)
    else
      match g.neighbor chunk.node (D.canonical_sides chunk.vertex a) with
      | none => none
      | some neighbor =>
        if ChunkId.mk neighbor chunk.vertex ∈ visited then
          some (visited, queue)
        else
          some (ChunkId.mk neighbor chunk.vertex :: visited,
            queue ++ [(ChunkId.mk neighbor chunk.vertex,
              geom.sideRefl (D.canonical_sides chunk.vertex a) m)])
  else some (visited, queue)

/-- The upper-boundary (adjacent vertex) half of one axis check of
`sphere_cast`: on a trigger, enqueue the adjacent vertex's chunk of the same
node (same transform) if not yet visited. -/
def upperStep {M N : Type} (D : Dodeca) (geom : CastGeom M N)
    (chunk : ChunkId) (m : M) (current : ℚ) (a : Fin 3)
    (visited : List ChunkId) (queue : List (ChunkId × M)) :
    List ChunkId × List (ChunkId × M) :=
  if geom.upperTrigger chunk.vertex m current a then
    if ChunkId.mk chunk.node (D.adjacent_vertices chunk.vertex a) ∈ visited
    then (visited, queue)
    else (ChunkId.mk chunk.node (D.adjacent_vertices chunk.vertex a)
        :: visited,
      queue ++ [(ChunkId.mk chunk.node (D.adjacent_vertices chunk.vertex a),
        m)])
  else (visited, queue)

/-- The per-axis neighbor-enqueueing loop of `sphere_cast` (`for axis in
0..3`), with the `OutOfBounds` early exit as `none`. -/
def axisLoop {M N : Type} (D : Dodeca) (geom : CastGeom M N) (g : Graph)
    (chunk : ChunkId) (m : M) (current : ℚ) :
    List (Fin 3) → List ChunkId → List (ChunkId × M) →
    Option (List ChunkId × List (ChunkId × M))
  | [], visited, queue => some (visited, queue)
  | a :: rest, visited, queue =>
    match lowerStep D geom g chunk m current a visited queue with
    | none => none
    | some (visited, queue) =>
      axisLoop D geom g chunk m current rest
        (upperStep D geom chunk m current a visited queue).1
        (upperStep D geom chunk m current a visited queue).2

/-- The hit bookkeeping of one iteration: the per-chunk cast either shrinks
the best hit (rebasing the normal into the original frame) or leaves it. -/
def updatedHit {M N : Type} (geom : CastGeom M N) (chunk : ChunkId) (m : M)
    (voxels : VoxelData) (current : ℚ) (old : Option (GraphCastHit N)) :
    Option (GraphCastHit N) :=
  match geom.chunkCast voxels chunk.vertex m current with
  | some (t, n) =>
    some (GraphCastHit.mk t chunk (geom.hitNormal m chunk.vertex n))
  | none => old

/-- One full iteration of the breadth-first loop of `sphere_cast` when it
neither exits `Ok` (empty queue) nor fails: pop the head chunk, require it
populated, run the per-chunk cast (shrinking the best hit), then walk the
three axes.  `none` when this iteration exits the loop instead. -/
def castStep {M N : Type} (D : Dodeca) (geom : CastGeom M N) (g : Graph)
    (tanh_distance : ℚ) (s : CastState M N) : Option (CastState M N) :=
  match s.queue with
  | [] => none
  | (chunk, m) :: queue' =>
    match g.get_chunk chunk with
    | some (.Populated voxels _ _ _) =>
      let current := currentOf s tanh_distance
      match axisLoop D geom g chunk m current [0, 1, 2] s.visited queue' with
      | none => none
      | some (visited', queue'') =>
        some ⟨updatedHit geom chunk m voxels current s.hit, visited', queue''⟩
    | _ => none

/-- The breadth-first loop of `sphere_cast`, with explicit fuel (the Rust
loop terminates because the visited set deduplicates enqueues over the
finitely many chunks of the graph; the fuel makes that termination measure
explicit).  `none` means the fuel ran out before the loop exited. -/
def castLoop {M N : Type} (D : Dodeca) (geom : CastGeom M N) (g : Graph)
    (tanh_distance : ℚ) :
    Nat → CastState M N →
    Option (Except SphereCastError (Option (GraphCastHit N)))
  | 0, _ => none
  | fuel + 1, s =>
    match s.queue with
    | [] => some (.ok s.hit)
    | (chunk, m) :: queue' =>
      match g.get_chunk chunk with
      | some (.Populated voxels _ _ _) =>
        let current := currentOf s tanh_distance
        match axisLoop D geom g chunk m current [0, 1, 2] s.visited queue' with
        | none => some (.error .OutOfBounds)
        | some (visited', queue'') => castLoop D geom g tanh_distance fuel
            ⟨updatedHit geom chunk m voxels current s.hit, visited', queue''⟩
      | _ => some (.error .OutOfBounds)

/-- The initial search state of `sphere_cast`: the `Vertex::A` chunk of the
position's node, with the position's local transform, an empty visited set
and no hit. -/
def initCastState {M N : Type} (pos_node : NodeId) (pos_local : M) :
    CastState M N :=
  ⟨none, [], [(ChunkId.mk pos_node vertexA, pos_local)]⟩

/-- `sphere_cast` from `graph_collision.rs` (geometry abstracted into
`geom`, loop fuel explicit). -/
def sphere_cast {M N : Type} (D : Dodeca) (geom : CastGeom M N) (g : Graph)
    (fuel : Nat) (pos_node : NodeId) (pos_local : M) (tanh_distance : ℚ) :
    Option (Except SphereCastError (Option (GraphCastHit N))) :=
  castLoop D geom g tanh_distance fuel (initCastState pos_node pos_local)

/-- The two `OutOfBounds` exit conditions of the loop body, as a predicate
on a search state: the head chunk of the queue is not populated, or some
axis triggers the lower-boundary check, survives the bounding-sphere
rejection, and has no neighbor node in the graph. -/
def StateErrs {M N : Type} (D : Dodeca) (geom : CastGeom M N) (g : Graph)
    (tanh_distance : ℚ) (s : CastState M N) : Prop :=
  ∃ chunk m rest, s.queue = (chunk, m) :: rest ∧
    (g.chunkPopulated chunk = false ∨
      (g.chunkPopulated chunk = true ∧
        ∃ a : Fin 3,
          geom.lowerTrigger chunk.vertex m (currentOf s tanh_distance) a
            = true ∧
          geom.nodeReject chunk.vertex m (currentOf s tanh_distance) a
            = false ∧
          g.neighbor chunk.node (D.canonical_sides chunk.vertex a) = none))

/-- The states the breadth-first traversal passes through: reflexive and
transitive closure of complete non-exiting iterations. -/
inductive CastReaches {M N : Type} (D : Dodeca) (geom : CastGeom M N)
    (g : Graph) (tanh_distance : ℚ) : CastState M N → CastState M N → Prop
  | refl (s : CastState M N) : CastReaches D geom g tanh_distance s s
  | step (s₁ s₂ s₃ : CastState M N)
      (h : castStep D geom g tanh_distance s₁ = some s₂)
      (h23 : CastReaches D geom g tanh_distance s₂ s₃) :
      CastReaches D geom g tanh_distance s₁ s₃

/-- A trivial geometry instance: no in-chunk hits and no boundary triggers. -/
def geom0 : CastGeom Unit Unit :=
  ⟨fun _ _ _ _ => none, fun _ _ _ _ => false, fun _ _ _ _ => false,
    fun _ _ _ _ => false, fun _ m => m, fun _ _ n => n⟩

/-! ### The hyperbolic math kernel (`math.rs`)

The kernel is embedded with exact rational arithmetic in place of `f32`
(the idealization under which the spec's 1e-5 drift tolerances are
discussed), with 4-vectors and matrices as explicit component structures
mirroring `nalgebra`'s row-major `Matrix4::new`.  The square root is the one
operation with no exact rational counterpart; it is passed as an oracle
`sq : ℚ → ℚ`, constrained in each theorem only by the exact values the
source relies on (e.g. `sq 1 = 1`, which holds of IEEE `sqrt` exactly). -/

/-- A 3-vector with rational components. -/
@[ext] structure Vec3 where
  x : ℚ
  y : ℚ
  z : ℚ
  deriving DecidableEq, Repr

/-- A 4-vector (homogeneous Minkowski coordinates) with rational
components. -/
@[ext] structure Vec4 where
  x : ℚ
  y : ℚ
  z : ℚ
  w : ℚ
  deriving DecidableEq, Repr

/-- A 3×3 matrix, fields named row-major as in `nalgebra`. -/
@[ext] structure Mat3 where
  m11 : ℚ
  m12 : ℚ
  m13 : ℚ
  m21 : ℚ
  m22 : ℚ
  m23 : ℚ
  m31 : ℚ
  m32 : ℚ
  m33 : ℚ
  deriving DecidableEq, Repr

/-- A 4×4 matrix, fields named row-major as in `nalgebra`. -/
@[ext] structure Mat4 where
  m11 : ℚ
  m12 : ℚ
  m13 : ℚ
  m14 : ℚ
  m21 : ℚ
  m22 : ℚ
  m23 : ℚ
  m24 : ℚ
  m31 : ℚ
  m32 : ℚ
  m33 : ℚ
  m34 : ℚ
  m41 : ℚ
  m42 : ℚ
  m43 : ℚ
  m44 : ℚ
  deriving DecidableEq, Repr

/-- `mip` from `math.rs`: the Minkowski inner product
`x1*y1 + x2*y2 + x3*y3 - x4*y4`. -/
def mip (a b : Vec4) : ℚ := a.x * b.x + a.y * b.y + a.z * b.z - a.w * b.w

/-- `origin` from `math.rs`. -/
def origin : Vec4 := ⟨0, 0, 0, 1⟩

/-- Componentwise sum of 4-vectors (`a + b` in the source). -/
def Vec4.add (a b : Vec4) : Vec4 := ⟨a.x + b.x, a.y + b.y, a.z + b.z, a.w + b.w⟩

/-- `mtranspose` from `math.rs`: the Minkowski transpose. -/
def mtranspose (m : Mat4) : Mat4 :=
  ⟨m.m11, m.m21, m.m31, -m.m41,
    m.m12, m.m22, m.m32, -m.m42,
    m.m13, m.m23, m.m33, -m.m43,
    -m.m14, -m.m24, -m.m34, m.m44⟩

/-- `minkowski_outer_product` from `math.rs`:
`a * RowVector4::new(b.x, b.y, b.z, -b.w)`. -/
def minkowski_outer_product (a b : Vec4) : Mat4 :=
  ⟨a.x * b.x, a.x * b.y, a.x * b.z, -(a.x * b.w),
    a.y * b.x, a.y * b.y, a.y * b.z, -(a.y * b.w),
    a.z * b.x, a.z * b.y, a.z * b.z, -(a.z * b.w),
    a.w * b.x, a.w * b.y, a.w * b.z, -(a.w * b.w)⟩

/-- Matrix product (row-by-column). -/
def Mat4.mul (A B : Mat4) : Mat4 :=
  ⟨A.m11 * B.m11 + A.m12 * B.m21 + A.m13 * B.m31 + A.m14 * B.m41,
    A.m11 * B.m12 + A.m12 * B.m22 + A.m13 * B.m32 + A.m14 * B.m42,
    A.m11 * B.m13 + A.m12 * B.m23 + A.m13 * B.m33 + A.m14 * B.m43,
    A.m11 * B.m14 + A.m12 * B.m24 + A.m13 * B.m34 + A.m14 * B.m44,
    A.m21 * B.m11 + A.m22 * B.m21 + A.m23 * B.m31 + A.m24 * B.m41,
    A.m21 * B.m12 + A.m22 * B.m22 + A.m23 * B.m32 + A.m24 * B.m42,
    A.m21 * B.m13 + A.m22 * B.m23 + A.m23 * B.m33 + A.m24 * B.m43,
    A.m21 * B.m14 + A.m22 * B.m24 + A.m23 * B.m34 + A.m24 * B.m44,
    A.m31 * B.m11 + A.m32 * B.m21 + A.m33 * B.m31 + A.m34 * B.m41,
    A.m31 * B.m12 + A.m32 * B.m22 + A.m33 * B.m32 + A.m34 * B.m42,
    A.m31 * B.m13 + A.m32 * B.m23 + A.m33 * B.m33 + A.m34 * B.m43,
    A.m31 * B.m14 + A.m32 * B.m24 + A.m33 * B.m34 + A.m34 * B.m44,
    A.m41 * B.m11 + A.m42 * B.m21 + A.m43 * B.m31 + A.m44 * B.m41,
    A.m41 * B.m12 + A.m42 * B.m22 + A.m43 * B.m32 + A.m44 * B.m42,
    A.m41 * B.m13 + A.m42 * B.m23 + A.m43 * B.m33 + A.m44 * B.m43,
    A.m41 * B.m14 + A.m42 * B.m24 + A.m43 * B.m34 + A.m44 * B.m44⟩

/-- Matrix-vector product. -/
def Mat4.mulVec (A : Mat4) (v : Vec4) : Vec4 :=
  ⟨A.m11 * v.x + A.m12 * v.y + A.m13 * v.z + A.m14 * v.w,
    A.m21 * v.x + A.m22 * v.y + A.m23 * v.z + A.m24 * v.w,
    A.m31 * v.x + A.m32 * v.y + A.m33 * v.z + A.m34 * v.w,
    A.m41 * v.x + A.m42 * v.y + A.m43 * v.z + A.m44 * v.w⟩

/-- The identity matrix. -/
def Mat4.id : Mat4 :=
  ⟨1, 0, 0, 0, 0, 1, 0, 0, 0, 0, 1, 0, 0, 0, 0, 1⟩

/-- Componentwise sum. -/
def Mat4.add (A B : Mat4) : Mat4 :=
  ⟨A.m11 + B.m11, A.m12 + B.m12, A.m13 + B.m13, A.m14 + B.m14,
    A.m21 + B.m21, A.m22 + B.m22, A.m23 + B.m23, A.m24 + B.m24,
    A.m31 + B.m31, A.m32 + B.m32, A.m33 + B.m33, A.m34 + B.m34,
    A.m41 + B.m41, A.m42 + B.m42, A.m43 + B.m43, A.m44 + B.m44⟩

/-- Componentwise difference. -/
def Mat4.sub (A B : Mat4) : Mat4 :=
  ⟨A.m11 - B.m11, A.m12 - B.m12, A.m13 - B.m13, A.m14 - B.m14,
    A.m21 - B.m21, A.m22 - B.m22, A.m23 - B.m23, A.m24 - B.m24,
    A.m31 - B.m31, A.m32 - B.m32, A.m33 - B.m33, A.m34 - B.m34,
    A.m41 - B.m41, A.m42 - B.m42, A.m43 - B.m43, A.m44 - B.m44⟩

/-- Scalar multiple. -/
def Mat4.smul (c : ℚ) (A : Mat4) : Mat4 :=
  ⟨c * A.m11, c * A.m12, c * A.m13, c * A.m14,
    c * A.m21, c * A.m22, c * A.m23, c * A.m24,
    c * A.m31, c * A.m32, c * A.m33, c * A.m34,
    c * A.m41, c * A.m42, c * A.m43, c * A.m44⟩

/-- `translate` from `math.rs`: the isometry translating `a` to `b` for
Lorentz-normalized pointlike `a`, `b`:
`I - 2 * outer(b, a) + outer(a+b, a+b) / (1 - mip(a, b))`. -/
def translate (a b : Vec4) : Mat4 :=
  Mat4.add
    (Mat4.sub Mat4.id (Mat4.smul 2 (minkowski_outer_product b a)))
    (Mat4.smul (1 - mip a b)⁻¹
      (minkowski_outer_product (a.add b) (a.add b)))

/-- The fourth column `m.index((.., 3))` of a matrix. -/
def Mat4.col3 (m : Mat4) : Vec4 := ⟨m.m14, m.m24, m.m34, m.m44⟩

/-- The upper-left 3×3 block `m.fixed_slice::<3, 3>(0, 0)`. -/
def Mat4.upper3x3 (m : Mat4) : Mat3 :=
  ⟨m.m11, m.m12, m.m13, m.m21, m.m22, m.m23, m.m31, m.m32, m.m33⟩

/-- `rotation.to_homogeneous()`: embed a 3×3 block into a 4×4 matrix. -/
def Mat3.toHomogeneous (m : Mat3) : Mat4 :=
  ⟨m.m11, m.m12, m.m13, 0,
    m.m21, m.m22, m.m23, 0,
    m.m31, m.m32, m.m33, 0,
    0, 0, 0, 1⟩

/-- The second and third columns of a 3×3 matrix, and the first. -/
def Mat3.col0 (m : Mat3) : Vec3 := ⟨m.m11, m.m21, m.m31⟩

/-- Second column. -/
def Mat3.col1 (m : Mat3) : Vec3 := ⟨m.m12, m.m22, m.m32⟩

/-- Third column. -/
def Mat3.col2 (m : Mat3) : Vec3 := ⟨m.m13, m.m23, m.m33⟩

/-- Euclidean dot product. -/
def Vec3.dot (a b : Vec3) : ℚ := a.x * b.x + a.y * b.y + a.z * b.z

/-- Scalar multiple. -/
def Vec3.smul (c : ℚ) (v : Vec3) : Vec3 := ⟨c * v.x, c * v.y, c * v.z⟩

/-- `.normalize()` of `nalgebra`: division by the Euclidean norm, computed
through the square-root oracle. -/
def Vec3.normalize (sq : ℚ → ℚ) (v : Vec3) : Vec3 :=
  Vec3.smul (sq (v.x ^ 2 + v.y ^ 2 + v.z ^ 2))⁻¹ v

/-- Determinant of a 3×3 matrix. -/
def Mat3.det (m : Mat3) : ℚ :=
  m.m11 * (m.m22 * m.m33 - m.m23 * m.m32)
    - m.m12 * (m.m21 * m.m33 - m.m23 * m.m31)
    + m.m13 * (m.m21 * m.m32 - m.m22 * m.m31)

/-- `f32::signum` on the values that occur here (the IEEE `±0` distinction
has no rational counterpart; `signum 0 = 1` like IEEE `+0`). -/
def signum (r : ℚ) : ℚ := if 0 ≤ r then 1 else -1

/-- `renormalize_rotation_reflection` from `math.rs`: Gram–Schmidt on the
third then second column, with the first column rebuilt as a signed cross
product. -/
def renormalize_rotation_reflection (sq : ℚ → ℚ) (m : Mat3) : Mat3 :=
  let zv := (m.col2).normalize sq
  let yv0 := m.col1
  let dot := zv.dot yv0
  let yv := (Vec3.mk (yv0.x - dot * zv.x) (yv0.y - dot * zv.y)
    (yv0.z - dot * zv.z)).normalize sq
  let sign := signum m.det
  ⟨sign * (yv.y * zv.z - yv.z * zv.y), yv.x, zv.x,
    sign * (yv.z * zv.x - yv.x * zv.z), yv.y, zv.y,
    sign * (yv.x * zv.y - yv.y * zv.x), yv.z, zv.z⟩

/-- `renormalize_isometry` from `math.rs`: split off the boost taking the
origin to the image of the origin, re-orthonormalize the rotation part, and
recompose. -/
def renormalize_isometry (sq : ℚ → ℚ) (m : Mat4) : Mat4 :=
  let boost := translate origin m.col3
  let inverse_boost := mtranspose boost
  let rotation := renormalize_rotation_reflection sq
    ((Mat4.mul inverse_boost m).upper3x3)
  Mat4.mul boost rotation.toHomogeneous

/-- A valid hyperbolic isometry: preserves the Minkowski form
(`mtranspose m * m = I`) and maps the origin into the future sheet of the
hyperboloid (`m44 > 0`). -/
def IsIsometry (m : Mat4) : Prop :=
  Mat4.mul (mtranspose m) m = Mat4.id ∧ 0 < m.m44

/-- Entry access by row and column index. -/
def Mat4.get (m : Mat4) : Fin 4 → Fin 4 → ℚ
  | 0, 0 => m.m11 | 0, 1 => m.m12 | 0, 2 => m.m13 | 0, 3 => m.m14
  | 1, 0 => m.m21 | 1, 1 => m.m22 | 1, 2 => m.m23 | 1, 3 => m.m24
  | 2, 0 => m.m31 | 2, 1 => m.m32 | 2, 2 => m.m33 | 2, 3 => m.m34
  | 3, 0 => m.m41 | 3, 1 => m.m42 | 3, 2 => m.m43 | 3, 3 => m.m44

/-- Transpose of a 3×3 matrix. -/
def Mat3.transpose (m : Mat3) : Mat3 :=
  ⟨m.m11, m.m21, m.m31, m.m12, m.m22, m.m32, m.m13, m.m23, m.m33⟩

/-- 3×3 matrix product. -/
def Mat3.mul (A B : Mat3) : Mat3 :=
  ⟨A.m11 * B.m11 + A.m12 * B.m21 + A.m13 * B.m31,
    A.m11 * B.m12 + A.m12 * B.m22 + A.m13 * B.m32,
    A.m11 * B.m13 + A.m12 * B.m23 + A.m13 * B.m33,
    A.m21 * B.m11 + A.m22 * B.m21 + A.m23 * B.m31,
    A.m21 * B.m12 + A.m22 * B.m22 + A.m23 * B.m32,
    A.m21 * B.m13 + A.m22 * B.m23 + A.m23 * B.m33,
    A.m31 * B.m11 + A.m32 * B.m21 + A.m33 * B.m31,
    A.m31 * B.m12 + A.m32 * B.m22 + A.m33 * B.m32,
    A.m31 * B.m13 + A.m32 * B.m23 + A.m33 * B.m33⟩

/-- The 3×3 identity matrix. -/
def Mat3.id3 : Mat3 := ⟨1, 0, 0, 0, 1, 0, 0, 0, 1⟩

/-- Scalar multiple of a 3×3 matrix. -/
def Mat3.smul3 (c : ℚ) (A : Mat3) : Mat3 :=
  ⟨c * A.m11, c * A.m12, c * A.m13,
    c * A.m21, c * A.m22, c * A.m23,
    c * A.m31, c * A.m32, c * A.m33⟩

/-- Adjugate (transposed cofactor matrix) of a 3×3 matrix. -/
def Mat3.adj (m : Mat3) : Mat3 :=
  ⟨m.m22 * m.m33 - m.m23 * m.m32,
    -(m.m12 * m.m33 - m.m13 * m.m32),
    m.m12 * m.m23 - m.m13 * m.m22,
    -(m.m21 * m.m33 - m.m23 * m.m31),
    m.m11 * m.m33 - m.m13 * m.m31,
    -(m.m11 * m.m23 - m.m13 * m.m21),
    m.m21 * m.m32 - m.m22 * m.m31,
    -(m.m11 * m.m32 - m.m12 * m.m31),
    m.m11 * m.m22 - m.m12 * m.m21⟩

/-- `Position` from `proto.rs`: a node of the graph plus a local isometry. -/
structure Position where
  node : NodeId
  «local» : Mat4

/-- `CharacterInput` from `proto.rs`. -/
structure CharacterInput where
  movement : Vec3
  no_clip : Bool
  block_update : Option BlockUpdate

/-- Modelled from the spec: the only field of `SimConfig` the no-clip branch
reads (the config type itself lives outside the provided sources). -/
structure SimCfg where
  no_clip_movement_speed : ℚ

/-- Modelled from the spec: `sanitize_motion_input` (defined in the crate
root, outside the provided sources) clamps the input vector to the unit
ball, `v / max(1, |v|)`, with the Euclidean norm taken through the
square-root oracle. -/
def sanitize_motion_input (sq : ℚ → ℚ) (v : Vec3) : Vec3 :=
  Vec3.smul (max 1 (sq (v.x ^ 2 + v.y ^ 2 + v.z ^ 2)))⁻¹ v

/-- `translate_along` from `math.rs`: the identity if the argument is zero,
otherwise the boost taking the origin towards `v` by hyperbolic distance
`|v|`.  The transcendental functions norm, cosh and sinhc are passed as
oracles `srt`, `ch`, `shc`. -/
def translate_along (srt ch shc : ℚ → ℚ) (v : Vec3) : Mat4 :=
  let norm := srt (v.x ^ 2 + v.y ^ 2 + v.z ^ 2)
  if norm = 0 then Mat4.id
  else translate origin ⟨v.x * shc norm, v.y * shc norm, v.z * shc norm,
    ch norm⟩

/-- `run_character_step` from `character_controller.rs`, instrumented with
the number of calls made into `sphere_cast`.  The non-no-clip branch is the
oracle `elseBranch` (its collision pipeline depends on chunk geometry
outside this development); `normalize_transform` is modelled from the spec
as an oracle, since `graph.rs` is outside the provided sources.  Both
branches are followed by the source's renormalization and node-transition
rebase. -/
def run_character_step (sq srt ch shc : ℚ → ℚ)
    (normalize_transform : NodeId → Mat4 → NodeId × Mat4)
    (elseBranch : Position → Vec3 → Bool → Vec3 →
      (Position × Vec3 × Bool) × Nat)
    (cfg : SimCfg) (pos : Position) (vel : Vec3) (onGround : Bool)
    (input : CharacterInput) (dt : ℚ) : (Position × Vec3 × Bool) × Nat :=
  let movement := sanitize_motion_input sq input.movement
  let step :=
    if input.no_clip then
      let vel1 := Vec3.smul cfg.no_clip_movement_speed movement
      let loc1 := Mat4.mul pos.«local»
        (translate_along srt ch shc (Vec3.smul dt vel1))
      ((Position.mk pos.node loc1, vel1, onGround), 0)
    else
      elseBranch pos vel onGround movement
  let pos1 := step.1.1
  let loc2 := renormalize_isometry sq pos1.«local»
  let nx := normalize_transform pos1.node loc2
  let posF := if nx.1 = pos1.node then Position.mk pos1.node loc2
    else Position.mk nx.1 (Mat4.mul nx.2 loc2)
  ((posF, step.1.2.1, step.1.2.2), step.2)

/-- Constant square-root oracle used by the character-step witness. -/
def cc_sq : ℚ → ℚ := fun _ => 1

/-- Square-root oracle returning 0, exact at the only queried argument 0. -/
def cc_srt : ℚ → ℚ := fun _ => 0

/-- Constant cosh/sinhc oracle for the character-step witness. -/
def cc_ch : ℚ → ℚ := fun _ => 1

/-- Trivial `normalize_transform` oracle: never rebase. -/
def cc_nt : NodeId → Mat4 → NodeId × Mat4 := fun n _ => (n, Mat4.id)

/-- Arbitrary non-no-clip branch oracle. -/
def cc_else : Position → Vec3 → Bool → Vec3 →
    (Position × Vec3 × Bool) × Nat := fun p v b _ => ((p, v, b), 1)

/-- No-clip input with zero movement. -/
def cc_input : CharacterInput := ⟨⟨0, 0, 0⟩, true, none⟩

/-- Identity start position at node 0. -/
def cc_pos : Position := ⟨0, Mat4.id⟩

/-- Geometry for the C1 witness: every per-chunk cast hits exactly at its
bound, no boundary ever triggers. -/
def geomW : CastGeom Unit Unit :=
  ⟨fun _ _ _ t => some (t, ()), fun _ _ _ _ => false, fun _ _ _ _ => false,
    fun _ _ _ _ => false, fun _ m => m, fun _ _ n => n⟩

/-- Geometry for the C1 counterexample, mirroring the source's
`sphere_cast_near_unloaded_chunk` regression test: a wall within distance
1 of the start chunk, and a node boundary the swept segment only crosses
once the bound reaches 2. -/
def geomC : CastGeom Unit Unit :=
  ⟨fun _ _ _ t => if (1 : ℚ) ≤ t then some (1, ()) else none,
    fun _ _ c _ => decide ((2 : ℚ) ≤ c), fun _ _ _ _ => false,
    fun _ _ _ _ => false, fun _ m => m, fun _ _ n => n⟩

theorem VoxelData.data_mut_array_length_solid (mat : Material) (dimension : Nat) :
    (VoxelData.data_mut_array (.Solid mat) dimension).length = (dimension + 2) ^ 3 := by
  simp [VoxelData.data_mut_array]

/-! Basic facts about `set_chunk`, `clear_solid_chunk_margin` and
`clear_adjacent_solid_chunk_margins`. -/

theorem Graph.set_chunk_dimension (g : Graph) (c : ChunkId) (ch : Chunk) :
    (g.set_chunk c ch).dimension = g.dimension := rfl

theorem Graph.set_chunk_neighbor (g : Graph) (c : ChunkId) (ch : Chunk) :
    (g.set_chunk c ch).neighbor = g.neighbor := rfl

theorem Graph.get_set_self {g : Graph} {c : ChunkId} {nd : NodeData}
    (h : g.nodes c.node = some nd) (ch : Chunk) :
    (g.set_chunk c ch).get_chunk c = some ch := by
  simp [Graph.set_chunk, Graph.get_chunk, h]

theorem Graph.get_set_ne {g : Graph} {c c' : ChunkId} (h : c' ≠ c)
    (ch : Chunk) :
    (g.set_chunk c ch).get_chunk c' = g.get_chunk c' := by
  unfold Graph.set_chunk Graph.get_chunk
  simp only
  by_cases hn : c'.node = c.node
  · rw [if_pos hn]
    have hv : c'.vertex ≠ c.vertex := by
      intro hv
      exact h (by cases c; cases c'; simp_all)
    cases hnd : g.nodes c'.node with
    | none => simp
    | some nd => simp [hv]
  · rw [if_neg hn]

theorem Graph.set_chunk_nodes_isSome (g : Graph) (c : ChunkId) (ch : Chunk)
    (n : NodeId) : ((g.set_chunk c ch).nodes n).isSome = (g.nodes n).isSome := by
  unfold Graph.set_chunk
  simp only
  by_cases hn : n = c.node
  · rw [if_pos hn]
    cases g.nodes n <;> simp
  · rw [if_neg hn]

theorem Graph.csm_dimension (g : Graph) (c : ChunkId) :
    (g.clear_solid_chunk_margin c).1.dimension = g.dimension := by
  unfold Graph.clear_solid_chunk_margin
  cases h : g.get_chunk c with
  | none => rfl
  | some ch =>
    cases ch with
    | Populated vox mo s os => by_cases hs : vox.is_solid <;> simp [hs, Graph.set_chunk_dimension]
    | Fresh => rfl
    | Generating => rfl

theorem Graph.csm_neighbor (g : Graph) (c : ChunkId) :
    (g.clear_solid_chunk_margin c).1.neighbor = g.neighbor := by
  unfold Graph.clear_solid_chunk_margin
  cases h : g.get_chunk c with
  | none => rfl
  | some ch =>
    cases ch with
    | Populated vox mo s os => by_cases hs : vox.is_solid <;> simp [hs, Graph.set_chunk_neighbor]
    | Fresh => rfl
    | Generating => rfl

theorem Graph.csm_nodes_isSome (g : Graph) (c : ChunkId) (n : NodeId) :
    (((g.clear_solid_chunk_margin c).1).nodes n).isSome = (g.nodes n).isSome := by
  unfold Graph.clear_solid_chunk_margin
  cases h : g.get_chunk c with
  | none => rfl
  | some ch =>
    cases ch with
    | Populated vox mo s os =>
      by_cases hs : vox.is_solid <;> simp [hs, Graph.set_chunk_nodes_isSome]
    | Fresh => rfl
    | Generating => rfl

theorem Graph.csm_get_ne {g : Graph} {c c' : ChunkId} (h : c' ≠ c) :
    ((g.clear_solid_chunk_margin c).1).get_chunk c' = g.get_chunk c' := by
  unfold Graph.clear_solid_chunk_margin
  cases hc : g.get_chunk c with
  | none => rfl
  | some ch =>
    cases ch with
    | Populated vox mo s os =>
      by_cases hs : vox.is_solid <;> simp [hs, Graph.get_set_ne h]
    | Fresh => rfl
    | Generating => rfl

/-- `clear_solid_chunk_margin` never changes a `Dense` populated chunk,
anywhere in the graph. -/
theorem Graph.csm_dense_unchanged {g : Graph} {c c' : ChunkId}
    {arr : List Material} {mo : Bool} {s os : Option SlotId}
    (h : g.get_chunk c' = some (.Populated (.Dense arr) mo s os)) :
    ((g.clear_solid_chunk_margin c).1).get_chunk c'
      = some (.Populated (.Dense arr) mo s os) := by
  by_cases hcc : c' = c
  · subst hcc
    unfold Graph.clear_solid_chunk_margin
    rw [h]
    simp [VoxelData.is_solid]
    exact h
  · rw [Graph.csm_get_ne hcc]
    exact h

/-- `clear_solid_chunk_margin` keeps every populated chunk populated. -/
theorem Graph.csm_preserves_populated {g : Graph} {c c' : ChunkId}
    (h : g.chunkPopulated c' = true) :
    ((g.clear_solid_chunk_margin c).1).chunkPopulated c' = true := by
  by_cases hcc : c' = c
  · subst hcc
    unfold Graph.chunkPopulated at h ⊢
    cases hc : g.get_chunk c' with
    | none => rw [hc] at h; exact absurd h (by simp)
    | some ch =>
      cases ch with
      | Populated vox mo s os =>
        simp only [Graph.clear_solid_chunk_margin, hc]
        by_cases hs : vox.is_solid = true
        · rw [if_pos hs]
          have hn : ∃ nd, g.nodes c'.node = some nd := by
            unfold Graph.get_chunk at hc
            cases hnd : g.nodes c'.node with
            | none => rw [hnd] at hc; simp at hc
            | some nd => exact ⟨nd, rfl⟩
          obtain ⟨nd, hnd⟩ := hn
          rw [Graph.get_set_self hnd]
          simp [Chunk.isPopulated]
        · rw [if_neg hs]
          rw [hc]
          simp [Chunk.isPopulated]
      | Fresh => rw [hc] at h; simp [Chunk.isPopulated] at h
      | Generating => rw [hc] at h; simp [Chunk.isPopulated] at h
  · unfold Graph.chunkPopulated at h ⊢
    rw [Graph.csm_get_ne hcc]
    exact h

/-- When the chunk at `c` is populated and solid, `clear_solid_chunk_margin`
rewrites it to its margin-cleared form and retires the surface handle. -/
theorem Graph.csm_clears_solid {g : Graph} {c : ChunkId} {mat : Material}
    {mo : Bool} {s os : Option SlotId}
    (h : g.get_chunk c = some (.Populated (.Solid mat) mo s os)) :
    ((g.clear_solid_chunk_margin c).1).get_chunk c
      = some (.Populated ((VoxelData.Solid mat).clear_margin g.dimension) mo
          none (s.or os)) := by
  unfold Graph.clear_solid_chunk_margin
  rw [h]
  simp only [VoxelData.is_solid, if_pos]
  have hn : ∃ nd, g.nodes c.node = some nd := by
    unfold Graph.get_chunk at h
    cases hnd : g.nodes c.node with
    | none => rw [hnd] at h; simp at h
    | some nd => exact ⟨nd, rfl⟩
  obtain ⟨nd, hnd⟩ := hn
  rw [Graph.get_set_self hnd]

/-- `get_chunk_neighbor` depends on the graph only through its `neighbor`
relation. -/
theorem Graph.gcn_congr {D : Dodeca} {g g' : Graph} {c : ChunkId}
    (h : g.neighbor = g'.neighbor) (a : Fin 3) (dir : CoordDirection) :
    Graph.get_chunk_neighbor D g c a dir = Graph.get_chunk_neighbor D g' c a dir := by
  cases dir <;> simp [Graph.get_chunk_neighbor, h]

/-- Any property preserved by `clear_solid_chunk_margin` is preserved by the
neighbor-walking fold of `clear_adjacent_solid_chunk_margins`. -/
theorem Graph.cacm_go_preserve (D : Dodeca) (c : ChunkId) {P : Graph → Prop}
    (hstep : ∀ g' cid, P g' → P (g'.clear_solid_chunk_margin cid).1) :
    ∀ (l : List (Fin 3 × CoordDirection)) (g : Graph), P g →
      P (l.foldl (fun g' p =>
        match Graph.get_chunk_neighbor D g' c p.1 p.2 with
        | some chunk_id => (g'.clear_solid_chunk_margin chunk_id).1
        | none => g') g) := by
  intro l
  induction l with
  | nil => intro g hg; exact hg
  | cons p rest ih =>
    intro g hg
    simp only [List.foldl_cons]
    cases hn : Graph.get_chunk_neighbor D g c p.1 p.2 with
    | none => simp only [hn]; exact ih g hg
    | some cid => simp only [hn]; exact ih _ (hstep g cid hg)

theorem Graph.cacm_dimension (D : Dodeca) (g : Graph) (c : ChunkId) :
    (g.clear_adjacent_solid_chunk_margins D c).dimension = g.dimension :=
  Graph.cacm_go_preserve D c (P := fun g' => g'.dimension = g.dimension)
    (fun g' cid h => by
      dsimp only at h ⊢; rw [Graph.csm_dimension g' cid]; exact h)
    axisDirPairs g rfl

theorem Graph.cacm_neighbor (D : Dodeca) (g : Graph) (c : ChunkId) :
    (g.clear_adjacent_solid_chunk_margins D c).neighbor = g.neighbor :=
  Graph.cacm_go_preserve D c (P := fun g' => g'.neighbor = g.neighbor)
    (fun g' cid h => by
      dsimp only at h ⊢; rw [Graph.csm_neighbor g' cid]; exact h)
    axisDirPairs g rfl

theorem Graph.cacm_nodes_isSome (D : Dodeca) (g : Graph) (c : ChunkId)
    (n : NodeId) :
    (((g.clear_adjacent_solid_chunk_margins D c)).nodes n).isSome
      = ((g.nodes n)).isSome :=
  Graph.cacm_go_preserve D c
    (P := fun g' => (g'.nodes n).isSome = (g.nodes n).isSome)
    (fun g' cid h => by
      dsimp only at h ⊢; rw [Graph.csm_nodes_isSome g' cid]; exact h)
    axisDirPairs g rfl

theorem Graph.cacm_preserves_populated (D : Dodeca) (g : Graph)
    {c c' : ChunkId} (h : g.chunkPopulated c' = true) :
    (g.clear_adjacent_solid_chunk_margins D c).chunkPopulated c' = true :=
  Graph.cacm_go_preserve D c (P := fun g' => g'.chunkPopulated c' = true)
    (fun g' cid h' => Graph.csm_preserves_populated h')
    axisDirPairs g h

theorem Graph.cacm_dense_unchanged (D : Dodeca) (g : Graph) {c c' : ChunkId}
    {arr : List Material} {mo : Bool} {s os : Option SlotId}
    (h : g.get_chunk c' = some (.Populated (.Dense arr) mo s os)) :
    (g.clear_adjacent_solid_chunk_margins D c).get_chunk c'
      = some (.Populated (.Dense arr) mo s os) :=
  Graph.cacm_go_preserve D c
    (P := fun g' => g'.get_chunk c' = some (.Populated (.Dense arr) mo s os))
    (fun g' cid h' => Graph.csm_dense_unchanged h')
    axisDirPairs g h

/-- The margin-cleared form of a chunk is always dense. -/
theorem VoxelData.clear_margin_dense (v : VoxelData) (d : Nat) :
    ∃ arr, v.clear_margin d = .Dense arr := ⟨_, rfl⟩

/-- The core of claim C4, part 2: if some neighbor-walk entry resolves to a
populated solid chunk `cid`, then after the walk that chunk holds its
margin-cleared data with surface handle retired. -/
theorem Graph.cacm_go_clears (D : Dodeca) (c : ChunkId) (cid : ChunkId)
    (mat : Material) (mo' : Bool) (s' os' : Option SlotId) (d : Nat)
    (nb : NodeId → Side → Option NodeId) :
    ∀ (l : List (Fin 3 × CoordDirection)) (g' : Graph),
      g'.dimension = d → g'.neighbor = nb →
      g'.get_chunk cid = some (.Populated (.Solid mat) mo' s' os') →
      (∃ p ∈ l, Graph.get_chunk_neighbor D g' c p.1 p.2 = some cid) →
      (l.foldl (fun g'' p =>
        match Graph.get_chunk_neighbor D g'' c p.1 p.2 with
        | some chunk_id => (g''.clear_solid_chunk_margin chunk_id).1
        | none => g'') g').get_chunk cid
        = some (.Populated ((VoxelData.Solid mat).clear_margin d) mo' none
            (s'.or os')) := by
  intro l
  induction l with
  | nil =>
    intro g' _ _ _ hex
    exact absurd hex (by simp)
  | cons p rest ih =>
    intro g' hdim hnb hcid hex
    simp only [List.foldl_cons]
    by_cases hp : Graph.get_chunk_neighbor D g' c p.1 p.2 = some cid
    · -- The head entry hits `cid`: it is cleared now and stays cleared.
      simp only [hp]
      have hcleared := Graph.csm_clears_solid hcid
      rw [hdim] at hcleared
      obtain ⟨arr, harr⟩ := VoxelData.clear_margin_dense (VoxelData.Solid mat) d
      rw [harr] at hcleared ⊢
      exact Graph.cacm_go_preserve D c
        (P := fun g'' => g''.get_chunk cid
          = some (.Populated (.Dense arr) mo' none (s'.or os')))
        (fun g'' cid' h' => Graph.csm_dense_unchanged h')
        rest _ hcleared
    · -- The head entry misses `cid`; recurse.
      have hex' : ∃ q ∈ rest, Graph.get_chunk_neighbor D g' c q.1 q.2 = some cid := by
        obtain ⟨q, hq, hqeq⟩ := hex
        rcases List.mem_cons.mp hq with hq' | hq'
        · subst hq'; exact absurd hqeq hp
        · exact ⟨q, hq', hqeq⟩
      cases hn : Graph.get_chunk_neighbor D g' c p.1 p.2 with
      | none =>
        simp only [hn]
        exact ih g' hdim hnb hcid hex'
      | some cid' =>
        have hne : cid ≠ cid' := by
          intro hcontra
          rw [hcontra] at hp
          exact hp hn
        simp only [hn]
        refine ih _ ?_ ?_ ?_ ?_
        · rw [Graph.csm_dimension]; exact hdim
        · rw [Graph.csm_neighbor]; exact hnb
        · rw [Graph.csm_get_ne hne]; exact hcid
        · obtain ⟨q, hq, hqeq⟩ := hex'
          refine ⟨q, hq, ?_⟩
          rw [@Graph.gcn_congr D _ g' _
            (by rw [Graph.csm_neighbor]) q.1 q.2]
          exact hqeq

/-- Early-exit semantics of the neighbor-inspection loop of `populate_chunk`:
when no neighbor lookup can panic, it computes exactly "some neighbor is
populated and modified". -/
theorem Graph.any_modified_neighbor_spec (D : Dodeca) (g : Graph) (c : ChunkId) :
    ∀ l : List (Fin 3 × CoordDirection),
      (∀ p ∈ l, g.neighborLookupSafe D c p = true) →
      g.any_modified_neighbor D c l = some (l.any (g.neighborModified D c)) := by
  intro l
  induction l with
  | nil => intro _; simp [Graph.any_modified_neighbor]
  | cons p rest ih =>
    intro hsafe
    have hsafe_rest : ∀ q ∈ rest, g.neighborLookupSafe D c q = true :=
      fun q hq => hsafe q (List.mem_cons_of_mem p hq)
    have hsafe_p := hsafe p (List.mem_cons_self p rest)
    cases hn : Graph.get_chunk_neighbor D g c p.1 p.2 with
    | none =>
      have hm : g.neighborModified D c p = false := by
        simp [Graph.neighborModified, hn]
      simp only [Graph.any_modified_neighbor, hn, ih hsafe_rest,
        List.any_cons, hm, Bool.false_or]
    | some cid =>
      cases hch : g.get_chunk cid with
      | none =>
        exfalso
        have : (g.get_chunk cid).isSome = true := by
          have h1 := hsafe_p
          unfold Graph.neighborLookupSafe at h1
          rw [hn] at h1
          exact h1
        rw [hch] at this
        simp at this
      | some ch =>
        have hm : g.neighborModified D c p = ch.isPopulatedModified := by
          simp [Graph.neighborModified, hn, Graph.chunkPopulatedModified, hch]
        cases ch with
        | Populated vox mo s os =>
          cases mo with
          | true =>
            simp only [Graph.any_modified_neighbor, hn, hch, List.any_cons, hm,
              Chunk.isPopulatedModified, Bool.true_or]
          | false =>
            simp only [Graph.any_modified_neighbor, hn, hch, ih hsafe_rest,
              List.any_cons, hm, Chunk.isPopulatedModified, Bool.false_or]
        | Fresh =>
          simp only [Graph.any_modified_neighbor, hn, hch, ih hsafe_rest,
            List.any_cons, hm, Chunk.isPopulatedModified, Bool.false_or]
        | Generating =>
          simp only [Graph.any_modified_neighbor, hn, hch, ih hsafe_rest,
            List.any_cons, hm, Chunk.isPopulatedModified, Bool.false_or]

/-- A fold whose every step preserves list length preserves list length. -/
theorem foldl_length_preserved {step : List Material → Nat → List Material}
    (h : ∀ L x, (step L x).length = L.length) :
    ∀ (l : List Nat) (L : List Material), (l.foldl step L).length = L.length := by
  intro l
  induction l with
  | nil => intro L; rfl
  | cons a l ih =>
    intro L
    rw [List.foldl_cons, ih (step L a), h L a]

/-- `clear_margin` always yields dense data of the same (padded) length as
the promoted input. -/
theorem VoxelData.clear_margin_array (v : VoxelData) (d : Nat) :
    ∃ arr, v.clear_margin d = .Dense arr ∧
      arr.length = (v.data_mut_array d).length := by
  refine ⟨_, rfl, ?_⟩
  refine foldl_length_preserved (fun L z => ?_) _ _
  refine foldl_length_preserved (fun L y => ?_) _ _
  refine foldl_length_preserved (fun L x => ?_) _ _
  dsimp only
  split
  · rw [List.length_set]
  · rfl

/-! Small helper lemmas about `List.set` and `List.getD`. -/

theorem getD_set_self {l : List Material} {i : Nat} (h : i < l.length)
    (a d : Material) : (l.set i a).getD i d = a := by
  rw [List.getD_eq_getElem _ _ (by simpa using h)]
  simp [List.getElem_set, h]

theorem getD_set_ne {l : List Material} {i j : Nat} (hij : i ≠ j)
    (a d : Material) : (l.set i a).getD j d = l.getD j d := by
  by_cases hj : j < l.length
  · rw [List.getD_eq_getElem _ _ (by simpa using hj),
      List.getD_eq_getElem _ _ hj]
    simp [List.getElem_set, hij]
  · rw [List.getD_eq_default _ _ (by simpa using Nat.le_of_not_lt hj),
      List.getD_eq_default _ _ (by simpa using Nat.le_of_not_lt hj)]

/-- Injectivity of `Coords.to_index` on in-chunk coordinates. -/
theorem Coords.to_index_inj {d x y z x' y' z' : Nat}
    (hx : x < d) (hy : y < d) (hz : z < d)
    (hx' : x' < d) (hy' : y' < d) (hz' : z' < d)
    (h : (Coords.mk x y z).to_index d = (Coords.mk x' y' z').to_index d) :
    x = x' ∧ y = y' ∧ z = z' := by
  unfold Coords.to_index at h
  simp only at h
  have hL : 0 < d + 2 := by omega
  have hrw : ∀ a b c : Nat, (a + 1) + (b + 1) * (d + 2) + (c + 1) * (d + 2) ^ 2
      = (a + 1) + (d + 2) * ((b + 1) + (d + 2) * (c + 1)) := by
    intro a b c; ring
  rw [hrw x y z, hrw x' y' z'] at h
  have hmod := congrArg (· % (d + 2)) h
  simp only [Nat.add_mul_mod_self_left] at hmod
  rw [Nat.mod_eq_of_lt (by omega), Nat.mod_eq_of_lt (by omega)] at hmod
  have hx_eq : x = x' := by omega
  subst hx_eq
  have h2 : (y + 1) + (d + 2) * (z + 1) = (y' + 1) + (d + 2) * (z' + 1) := by
    have := Nat.eq_of_mul_eq_mul_left hL (by omega :
      (d + 2) * ((y + 1) + (d + 2) * (z + 1))
        = (d + 2) * ((y' + 1) + (d + 2) * (z' + 1)))
    omega
  have hmod2 := congrArg (· % (d + 2)) h2
  simp only [Nat.add_mul_mod_self_left] at hmod2
  rw [Nat.mod_eq_of_lt (by omega), Nat.mod_eq_of_lt (by omega)] at hmod2
  have hy_eq : y = y' := by omega
  subst hy_eq
  have := Nat.eq_of_mul_eq_mul_left hL (by omega :
    (d + 2) * (z + 1) = (d + 2) * (z' + 1))
  omega

/-- Arithmetic core of claim C10: coordinates strictly below the chunk
dimension index strictly inside the padded cube. -/
theorem Coords.to_index_lt (c : Coords) (d : Nat)
    (hx : c.x < d) (hy : c.y < d) (hz : c.z < d) :
    c.to_index d < (d + 2) ^ 3 := by
  unfold Coords.to_index
  simp only
  nlinarith [hx, hy, hz, sq_nonneg (d + 2)]

/-- Characterization of the innermost `from_serializable` loop: the counter
advances by `n`, the array length is preserved, the cells written are exactly
the first `n` cells of the current row, and all other cells are untouched. -/
theorem fromSerX_spec (ser : List Material) (d y z : Nat)
    (hy : y < d) (hz : z < d) :
    ∀ n, n ≤ d → ∀ (L : List Material) (i₀ : Nat), L.length = (d + 2) ^ 3 →
      (fromSerX ser d y z n (L, i₀)).2 = i₀ + n ∧
      (fromSerX ser d y z n (L, i₀)).1.length = L.length ∧
      (∀ x, x < n →
        (fromSerX ser d y z n (L, i₀)).1.getD ((Coords.mk x y z).to_index d)
          default = ser.getD (i₀ + x) default) ∧
      (∀ j, (∀ x, x < n → j ≠ (Coords.mk x y z).to_index d) →
        (fromSerX ser d y z n (L, i₀)).1.getD j default = L.getD j default) := by
  intro n
  induction n with
  | zero =>
    intro _ L i₀ hL
    simp [fromSerX]
  | succ n ih =>
    intro hn L i₀ hL
    have hn' : n ≤ d := Nat.le_of_succ_le hn
    obtain ⟨ih1, ih2, ih3, ih4⟩ := ih hn' L i₀ hL
    have hstep : fromSerX ser d y z (n + 1) (L, i₀)
        = ((fromSerX ser d y z n (L, i₀)).1.set
            ((Coords.mk n y z).to_index d)
            (ser.getD (fromSerX ser d y z n (L, i₀)).2 default),
          (fromSerX ser d y z n (L, i₀)).2 + 1) := by
      simp [fromSerX, List.range_succ]
    rw [hstep]
    have hlen : (fromSerX ser d y z n (L, i₀)).1.length = (d + 2) ^ 3 := by
      rw [ih2, hL]
    have hidx : (Coords.mk n y z).to_index d < (d + 2) ^ 3 :=
      Coords.to_index_lt (Coords.mk n y z) d (show n < d by omega) hy hz
    refine ⟨by simp [ih1]; omega, by simp [ih2], ?_, ?_⟩
    · intro x hx
      rcases Nat.lt_succ_iff_lt_or_eq.mp hx with hx' | hx'
      · have hne : (Coords.mk n y z).to_index d ≠ (Coords.mk x y z).to_index d := by
          intro hcontra
          have := Coords.to_index_inj (by omega) hy hz (by omega) hy hz hcontra
          omega
        simp only [getD_set_ne hne]
        exact ih3 x hx'
      · subst hx'
        rw [getD_set_self (by rw [hlen]; exact hidx), ih1]
    · intro j hj
      have hne : (Coords.mk n y z).to_index d ≠ j :=
        fun hcontra => hj n (Nat.lt_succ_self n) hcontra.symm
      simp only [getD_set_ne hne]
      exact ih4 j fun x hx => hj x (Nat.lt_succ_of_lt hx)

/-- Characterization of the middle `from_serializable` loop. -/
theorem fromSerY_spec (ser : List Material) (d z : Nat) (hz : z < d) :
    ∀ n, n ≤ d → ∀ (L : List Material) (i₀ : Nat), L.length = (d + 2) ^ 3 →
      (fromSerY ser d z n (L, i₀)).2 = i₀ + n * d ∧
      (fromSerY ser d z n (L, i₀)).1.length = L.length ∧
      (∀ y x, y < n → x < d →
        (fromSerY ser d z n (L, i₀)).1.getD ((Coords.mk x y z).to_index d)
          default = ser.getD (i₀ + y * d + x) default) ∧
      (∀ j, (∀ y x, y < n → x < d → j ≠ (Coords.mk x y z).to_index d) →
        (fromSerY ser d z n (L, i₀)).1.getD j default = L.getD j default) := by
  intro n
  induction n with
  | zero =>
    intro _ L i₀ hL
    simp [fromSerY]
  | succ n ih =>
    intro hn L i₀ hL
    have hn' : n ≤ d := Nat.le_of_succ_le hn
    obtain ⟨ih1, ih2, ih3, ih4⟩ := ih hn' L i₀ hL
    have hstep : fromSerY ser d z (n + 1) (L, i₀)
        = fromSerX ser d n z d (fromSerY ser d z n (L, i₀)) := by
      simp [fromSerY, List.range_succ]
    have hprev : fromSerY ser d z n (L, i₀)
        = ((fromSerY ser d z n (L, i₀)).1, (fromSerY ser d z n (L, i₀)).2) := rfl
    have hlen : (fromSerY ser d z n (L, i₀)).1.length = (d + 2) ^ 3 := by
      rw [ih2, hL]
    obtain ⟨hx1, hx2, hx3, hx4⟩ :=
      fromSerX_spec ser d n z (by omega) hz d (le_refl d)
        (fromSerY ser d z n (L, i₀)).1 (fromSerY ser d z n (L, i₀)).2 hlen
    rw [hstep, hprev]
    refine ⟨by rw [hx1, ih1]; ring, by rw [hx2, ih2], ?_, ?_⟩
    · intro y x hy hx
      rcases Nat.lt_succ_iff_lt_or_eq.mp hy with hy' | hy'
      · have huntouched := hx4 ((Coords.mk x y z).to_index d) (fun x' hx' => by
          intro hcontra
          have := Coords.to_index_inj hx (by omega) hz hx' (by omega) hz hcontra
          omega)
        rw [huntouched]
        exact ih3 y x hy' hx
      · subst hy'
        rw [hx3 x hx, ih1]
    · intro j hj
      have huntouched := hx4 j fun x' hx' => hj n x' (Nat.lt_succ_self n) hx'
      rw [huntouched]
      exact ih4 j fun y x hy hx => hj y x (Nat.lt_succ_of_lt hy) hx

/-- Characterization of the outermost `from_serializable` loop. -/
theorem fromSerZ_spec (ser : List Material) (d : Nat) :
    ∀ n, n ≤ d → ∀ (L : List Material) (i₀ : Nat), L.length = (d + 2) ^ 3 →
      (fromSerZ ser d n (L, i₀)).2 = i₀ + n * (d * d) ∧
      (fromSerZ ser d n (L, i₀)).1.length = L.length ∧
      (∀ z y x, z < n → y < d → x < d →
        (fromSerZ ser d n (L, i₀)).1.getD ((Coords.mk x y z).to_index d)
          default = ser.getD (i₀ + z * (d * d) + y * d + x) default) := by
  intro n
  induction n with
  | zero =>
    intro _ L i₀ hL
    simp [fromSerZ]
  | succ n ih =>
    intro hn L i₀ hL
    have hn' : n ≤ d := Nat.le_of_succ_le hn
    obtain ⟨ih1, ih2, ih3⟩ := ih hn' L i₀ hL
    have hstep : fromSerZ ser d (n + 1) (L, i₀)
        = fromSerY ser d n d (fromSerZ ser d n (L, i₀)) := by
      simp [fromSerZ, List.range_succ]
    have hprev : fromSerZ ser d n (L, i₀)
        = ((fromSerZ ser d n (L, i₀)).1, (fromSerZ ser d n (L, i₀)).2) := rfl
    have hlen : (fromSerZ ser d n (L, i₀)).1.length = (d + 2) ^ 3 := by
      rw [ih2, hL]
    obtain ⟨hy1, hy2, hy3, hy4⟩ :=
      fromSerY_spec ser d n (by omega) d (le_refl d)
        (fromSerZ ser d n (L, i₀)).1 (fromSerZ ser d n (L, i₀)).2 hlen
    rw [hstep, hprev]
    refine ⟨by rw [hy1, ih1]; ring, by rw [hy2, ih2], ?_⟩
    intro z y x hz hy hx
    rcases Nat.lt_succ_iff_lt_or_eq.mp hz with hz' | hz'
    · have huntouched := hy4 ((Coords.mk x y z).to_index d) (fun y' x' hy' hx' => by
        intro hcontra
        have := Coords.to_index_inj hx hy (by omega) hx' hy' (by omega) hcontra
        omega)
      rw [huntouched]
      exact ih3 z y x hz' hy hx
    · subst hz'
      rw [hy3 y x hy hx, ih1]

/-- The innermost `to_serializable` loop pushes one grid row of interior
voxels. -/
theorem toSerX_eq (data : List Material) (d y z : Nat) :
    ∀ n acc, toSerX data d y z n acc
      = acc ++ (List.range n).map
          (fun x => data.getD ((Coords.mk x y z).to_index d) default) := by
  intro n
  induction n with
  | zero => intro acc; simp [toSerX]
  | succ n ih =>
    intro acc
    simp only [toSerX, List.range_succ, List.foldl_append, List.foldl_cons,
      List.foldl_nil, List.map_append, List.map_cons, List.map_nil]
    rw [← toSerX, ih, List.append_assoc]

/-- The middle `to_serializable` loop pushes one grid plane of interior
voxels. -/
theorem toSerY_eq (data : List Material) (d z : Nat) :
    ∀ n acc, toSerY data d z n acc
      = acc ++ (List.range n).flatMap
          (fun y => (List.range d).map
            (fun x => data.getD ((Coords.mk x y z).to_index d) default)) := by
  intro n
  induction n with
  | zero => intro acc; simp [toSerY]
  | succ n ih =>
    intro acc
    simp only [toSerY, List.range_succ, List.foldl_append, List.foldl_cons,
      List.foldl_nil, List.flatMap_append]
    rw [← toSerY, ih, toSerX_eq, List.append_assoc]
    simp

/-- The outermost `to_serializable` loop pushes the whole interior. -/
theorem toSerZ_eq (data : List Material) (d : Nat) :
    ∀ n acc, toSerZ data d n acc
      = acc ++ (List.range n).flatMap
          (fun z => (List.range d).flatMap
            (fun y => (List.range d).map
              (fun x => data.getD ((Coords.mk x y z).to_index d) default))) := by
  intro n
  induction n with
  | zero => intro acc; simp [toSerZ]
  | succ n ih =>
    intro acc
    simp only [toSerZ, List.range_succ, List.foldl_append, List.foldl_cons,
      List.foldl_nil, List.flatMap_append]
    rw [← toSerZ, ih, toSerY_eq, List.append_assoc]
    simp

/-- Length of a flat map whose pieces all have the same length `m`. -/
theorem length_flatMap_uniform {f : Nat → List Material} {n m : Nat}
    (hf : ∀ k, k < n → (f k).length = m) :
    ((List.range n).flatMap f).length = n * m := by
  induction n with
  | zero => simp
  | succ n ih =>
    rw [List.range_succ, List.flatMap_append, List.length_append,
      ih (fun k hk => hf k (Nat.lt_succ_of_lt hk))]
    simp only [List.flatMap_cons, List.flatMap_nil, List.append_nil]
    rw [hf n (Nat.lt_succ_self n)]
    ring

/-- Element access in a flat map whose pieces all have the same length. -/
theorem getD_flatMap_uniform {f : Nat → List Material} {n m : Nat}
    (hf : ∀ k, k < n → (f k).length = m) (j r : Nat)
    (hj : j < n) (hr : r < m) :
    ((List.range n).flatMap f).getD (j * m + r) default
      = (f j).getD r default := by
  induction n with
  | zero => omega
  | succ n ih =>
    rw [List.range_succ, List.flatMap_append]
    simp only [List.flatMap_cons, List.flatMap_nil, List.append_nil]
    have hlen : ((List.range n).flatMap f).length = n * m :=
      length_flatMap_uniform (fun k hk => hf k (Nat.lt_succ_of_lt hk))
    rcases Nat.lt_succ_iff_lt_or_eq.mp hj with hj' | hj'
    · rw [List.getD_append _ _ _ _ (by
        rw [hlen]
        calc j * m + r < j * m + m := by omega
        _ = (j + 1) * m := by ring
        _ ≤ n * m := Nat.mul_le_mul_right m (by omega))]
      exact ih (fun k hk => hf k (Nat.lt_succ_of_lt hk)) hj'
    · subst hj'
      rw [List.getD_append_right _ _ _ _ (by rw [hlen]; exact Nat.le_add_right _ r)]
      rw [hlen]
      congr 1
      omega

/-- Element access in `(List.range d).map g`. -/
theorem getD_map_range (g : Nat → Material) (d x : Nat) (hx : x < d) :
    ((List.range d).map g).getD x default = g x := by
  rw [List.getD_eq_getElem _ _ (by simpa using hx)]
  simp

/-- C8: The wire-form conversion round-trips: for every dimension `d` and
every serializable voxel payload with exactly `d^3` entries,
`from_serializable` returns `some` of a `Dense` chunk of size `(d+2)^3` whose
interior equals the payload, and `to_serializable` of that result returns the
original `d^3`-entry payload; `from_serializable` returns `none` exactly when
the payload length differs from `d^3`. -/
theorem claim_C8_serialization_roundtrip (d : Nat) (ser : List Material) :
    (ser.length = d ^ 3 →
      ∃ data : List Material,
        VoxelData.from_serializable ser d = some (.Dense data) ∧
        data.length = (d + 2) ^ 3 ∧
        (∀ x y z, x < d → y < d → z < d →
          data.getD ((Coords.mk x y z).to_index d) default
            = ser.getD (x + y * d + z * d ^ 2) default) ∧
        VoxelData.to_serializable (.Dense data) d = some ser) ∧
    (VoxelData.from_serializable ser d = none ↔ ser.length ≠ d ^ 3) := by
  constructor
  · intro hlen
    refine ⟨(from_serializable_loop ser d).1, ?_, ?_, ?_, ?_⟩
    · unfold VoxelData.from_serializable
      rw [if_neg (by omega)]
    · have h := fromSerZ_spec ser d d (le_refl d)
        (List.replicate ((d + 2) ^ 3) Material.Void) 0 (by simp)
      rw [show from_serializable_loop ser d
        = fromSerZ ser d d (List.replicate ((d + 2) ^ 3) Material.Void, 0)
        from rfl]
      rw [h.2.1]
      simp
    · intro x y z hx hy hz
      have h := fromSerZ_spec ser d d (le_refl d)
        (List.replicate ((d + 2) ^ 3) Material.Void) 0 (by simp)
      rw [show from_serializable_loop ser d
        = fromSerZ ser d d (List.replicate ((d + 2) ^ 3) Material.Void, 0)
        from rfl]
      rw [h.2.2 z y x hz hy hx]
      congr 1
      ring
    · -- `to_serializable` recovers the payload.
      set data := (from_serializable_loop ser d).1 with hdata
      have h := fromSerZ_spec ser d d (le_refl d)
        (List.replicate ((d + 2) ^ 3) Material.Void) 0 (by simp)
      have hvals : ∀ z y x, z < d → y < d → x < d →
          data.getD ((Coords.mk x y z).to_index d) default
            = ser.getD (z * (d * d) + y * d + x) default := by
        intro z y x hz hy hx
        rw [hdata, show from_serializable_loop ser d
          = fromSerZ ser d d (List.replicate ((d + 2) ^ 3) Material.Void, 0)
          from rfl]
        rw [h.2.2 z y x hz hy hx]
        congr 1
        omega
      show some (toSerZ data d d []) = some ser
      congr 1
      rw [toSerZ_eq]
      simp only [List.nil_append]
      -- The produced list equals `ser`, elementwise.
      have hrow : ∀ z y, ((List.range d).map
          (fun x => data.getD ((Coords.mk x y z).to_index d) default)).length
            = d := by
        intro z y; simp
      have hplane : ∀ z, z < d → ((List.range d).flatMap
          (fun y => (List.range d).map
            (fun x => data.getD ((Coords.mk x y z).to_index d) default))).length
            = d * d := by
        intro z _
        exact length_flatMap_uniform (fun y _ => hrow z y)
      have hBlen : ((List.range d).flatMap
          (fun z => (List.range d).flatMap
            (fun y => (List.range d).map
              (fun x => data.getD ((Coords.mk x y z).to_index d) default)))).length
            = d * (d * d) :=
        length_flatMap_uniform hplane
      apply List.ext_getElem
      · rw [hBlen, hlen]; ring
      · intro i h1 h2
        have hi : i < d * (d * d) := by rw [← hBlen]; exact h1
        have hdd : 0 < d * d := by
          rcases Nat.eq_zero_or_pos d with h | h
          · subst h; simp at hi
          · exact Nat.mul_pos h h
        have hd : 0 < d := by
          rcases Nat.eq_zero_or_pos d with h | h
          · subst h; simp at hi
          · exact h
        -- Decompose `i` into grid coordinates.
        set z := i / (d * d) with hzdef
        set r2 := i % (d * d) with hr2def
        set y := r2 / d with hydef
        set x := r2 % d with hxdef
        have hzr : z * (d * d) + r2 = i := by
          rw [hzdef, hr2def, Nat.mul_comm]
          exact Nat.div_add_mod i (d * d)
        have hyx : y * d + x = r2 := by
          rw [hydef, hxdef, Nat.mul_comm]
          exact Nat.div_add_mod r2 d
        have hzlt : z < d := by
          rw [hzdef]
          exact Nat.div_lt_of_lt_mul (by rw [Nat.mul_comm]; exact hi)
        have hr2lt : r2 < d * d := Nat.mod_lt i hdd
        have hylt : y < d := by
          rw [hydef]
          exact Nat.div_lt_of_lt_mul (by omega)
        have hxlt : x < d := Nat.mod_lt r2 hd
        rw [← List.getD_eq_getElem _ default h1, ← List.getD_eq_getElem _ default h2]
        rw [show i = z * (d * d) + r2 from hzr.symm]
        rw [getD_flatMap_uniform hplane z r2 hzlt hr2lt]
        rw [show r2 = y * d + x from hyx.symm]
        rw [getD_flatMap_uniform (fun y' _ => hrow z y') y x hylt hxlt]
        rw [getD_map_range _ d x hxlt]
        rw [hvals z y x hzlt hylt hxlt]
        congr 1
        omega
  · unfold VoxelData.from_serializable
    by_cases h : ser.length = d ^ 3
    · rw [if_neg (by omega)]
      simp [h]
    · rw [if_pos (by omega)]
      simp [h]

/-- Witness for C8 at dimension 1 and the one-voxel payload `[Dirt]`. -/
theorem claim_C8_serialization_roundtrip_witness :
    ∃ data : List Material,
      VoxelData.from_serializable [Material.Dirt] 1 = some (.Dense data) ∧
      data.length = (1 + 2) ^ 3 ∧
      (∀ x y z, x < 1 → y < 1 → z < 1 →
        data.getD ((Coords.mk x y z).to_index 1) default
          = [Material.Dirt].getD (x + y * 1 + z * 1 ^ 2) default) ∧
      VoxelData.to_serializable (.Dense data) 1 = some [Material.Dirt] :=
  (claim_C8_serialization_roundtrip 1 [Material.Dirt]).1 (by decide)

/-- C10: for every chunk dimension and every in-chunk coordinate triple, the
voxel index computed by `Coords::to_index` is strictly inside the padded
`(d+2)^3` cube, so indexing the dense array produced by `data_mut` (of the
padded length, as `data_mut`'s own promotion produces) is in bounds and the
in-bounds assertion in `update_block` cannot fail. -/
theorem claim_C10_to_index_in_bounds (d : Nat) (c : Coords)
    (hx : c.x < d) (hy : c.y < d) (hz : c.z < d) :
    c.to_index d < (d + 2) ^ 3 ∧
    (∀ v : VoxelData, (v.data_mut_array d).length = (d + 2) ^ 3 →
      c.to_index d < (v.data_mut_array d).length) ∧
    (∀ mat : Material, c.to_index d < ((VoxelData.Solid mat).data_mut_array d).length) := by
  have hb := Coords.to_index_lt c d hx hy hz
  refine ⟨hb, fun v hv => by rw [hv]; exact hb, fun mat => by
    rw [VoxelData.data_mut_array_length_solid]; exact hb⟩

/-- Witness for C10 at dimension 5 and coordinates `(1, 2, 3)`. -/
theorem claim_C10_to_index_in_bounds_witness :
    (Coords.mk 1 2 3).to_index 5 < (5 + 2) ^ 3 ∧
    (∀ v : VoxelData, (v.data_mut_array 5).length = (5 + 2) ^ 3 →
      (Coords.mk 1 2 3).to_index 5 < (v.data_mut_array 5).length) ∧
    (∀ mat : Material,
      (Coords.mk 1 2 3).to_index 5 < ((VoxelData.Solid mat).data_mut_array 5).length) :=
  claim_C10_to_index_in_bounds 5 (Coords.mk 1 2 3) (by decide) (by decide) (by decide)

/-- Reduction of `update_block` on a populated chunk. -/
theorem Graph.update_block_populated (D : Dodeca) (g : Graph) (bu : BlockUpdate)
    {vox : VoxelData} {mo : Bool} {s os : Option SlotId}
    (hch : g.get_chunk bu.chunk_id = some (.Populated vox mo s os)) :
    g.update_block D bu =
      (let voxels := if vox.is_solid then vox.clear_margin g.dimension else vox
       let arr := voxels.data_mut_array g.dimension
       if bu.coords.to_index g.dimension < arr.length then
         some ((Graph.set_chunk g bu.chunk_id (.Populated
           (.Dense (arr.set (bu.coords.to_index g.dimension) bu.new_material))
           true none (s.or os))).clear_adjacent_solid_chunk_margins D
             bu.chunk_id, true)
       else none) := by
  unfold Graph.update_block
  rw [hch]

/-- Reduction of `update_block` on a missing or unpopulated chunk. -/
theorem Graph.update_block_unpopulated (D : Dodeca) (g : Graph)
    (bu : BlockUpdate) (hch : g.chunkPopulated bu.chunk_id = false) :
    g.update_block D bu = some (g, false) := by
  unfold Graph.update_block
  unfold Graph.chunkPopulated at hch
  cases hc : g.get_chunk bu.chunk_id with
  | none => rfl
  | some ch =>
    rw [hc] at hch
    cases ch with
    | Populated vox mo' s os => simp [Chunk.isPopulated] at hch
    | Fresh => rfl
    | Generating => rfl

/-- C3: `update_block` returns `false` and leaves the graph completely
unchanged exactly when the target chunk is not `Populated`; on a `Populated`
chunk it returns `true`, writes the given material at the given coordinates
(promoting `Solid` data to `Dense`), sets the chunk's `modified` flag, and
retires any surface-cache handle.  (The coordinates are in chunk range and
dense chunk data has the maintained padded length.) -/
theorem claim_C3_update_block (D : Dodeca) (g : Graph) (bu : BlockUpdate)
    (hx : bu.coords.x < g.dimension) (hy : bu.coords.y < g.dimension)
    (hz : bu.coords.z < g.dimension)
    (hwf : ∀ arr mo s os,
      g.get_chunk bu.chunk_id = some (.Populated (.Dense arr) mo s os) →
      arr.length = (g.dimension + 2) ^ 3) :
    (g.update_block D bu = some (g, false)
      ↔ g.chunkPopulated bu.chunk_id = false) ∧
    (∀ vox mo s os, g.get_chunk bu.chunk_id = some (.Populated vox mo s os) →
      ∃ g' arr, g.update_block D bu = some (g', true) ∧
        g'.get_chunk bu.chunk_id
          = some (.Populated (.Dense arr) true none (s.or os)) ∧
        arr.getD (bu.coords.to_index g.dimension) default = bu.new_material ∧
        arr.length = (g.dimension + 2) ^ 3) := by
  have hidx : bu.coords.to_index g.dimension < (g.dimension + 2) ^ 3 :=
    Coords.to_index_lt bu.coords g.dimension hx hy hz
  have part2 : ∀ vox mo s os,
      g.get_chunk bu.chunk_id = some (.Populated vox mo s os) →
      ∃ g' arr, g.update_block D bu = some (g', true) ∧
        g'.get_chunk bu.chunk_id
          = some (.Populated (.Dense arr) true none (s.or os)) ∧
        arr.getD (bu.coords.to_index g.dimension) default = bu.new_material ∧
        arr.length = (g.dimension + 2) ^ 3 := by
    intro vox mo s os hch
    have hnode : ∃ nd, g.nodes bu.chunk_id.node = some nd := by
      unfold Graph.get_chunk at hch
      cases hnd : g.nodes bu.chunk_id.node with
      | none => rw [hnd] at hch; simp at hch
      | some nd => exact ⟨nd, rfl⟩
    obtain ⟨nd, hnd⟩ := hnode
    -- The promoted array has the padded length in either case.
    have hlen : ((if vox.is_solid then vox.clear_margin g.dimension
        else vox).data_mut_array g.dimension).length = (g.dimension + 2) ^ 3 := by
      by_cases hs : vox.is_solid = true
      · rw [if_pos hs]
        cases vox with
        | Dense arr => simp [VoxelData.is_solid] at hs
        | Solid mat =>
          obtain ⟨arr, he, hl⟩ :=
            VoxelData.clear_margin_array (VoxelData.Solid mat) g.dimension
          rw [he]
          unfold VoxelData.data_mut_array
          rw [hl]
          exact VoxelData.data_mut_array_length_solid mat g.dimension
      · rw [if_neg hs]
        cases vox with
        | Solid mat => simp [VoxelData.is_solid] at hs
        | Dense arr =>
          exact hwf arr mo s os hch
    rw [Graph.update_block_populated D g bu hch]
    dsimp only
    rw [if_pos (by rw [hlen]; exact hidx)]
    set arrw := ((if vox.is_solid then vox.clear_margin g.dimension
      else vox).data_mut_array g.dimension).set
        (bu.coords.to_index g.dimension) bu.new_material with harrw
    refine ⟨_, arrw, rfl, ?_, ?_, ?_⟩
    · apply Graph.cacm_dense_unchanged
      exact Graph.get_set_self hnd _
    · rw [harrw]
      exact getD_set_self (by rw [hlen]; exact hidx) _ _
    · rw [harrw, List.length_set]
      exact hlen
  refine ⟨⟨?_, ?_⟩, part2⟩
  · intro h
    by_cases hp : g.chunkPopulated bu.chunk_id = true
    · exfalso
      have : ∃ vox mo s os,
          g.get_chunk bu.chunk_id = some (.Populated vox mo s os) := by
        unfold Graph.chunkPopulated at hp
        cases hc : g.get_chunk bu.chunk_id with
        | none => rw [hc] at hp; simp at hp
        | some ch =>
          rw [hc] at hp
          cases ch with
          | Populated vox mo s os => exact ⟨vox, mo, s, os, rfl⟩
          | Fresh => simp [Chunk.isPopulated] at hp
          | Generating => simp [Chunk.isPopulated] at hp
      obtain ⟨vox, mo, s, os, hch⟩ := this
      obtain ⟨g', arr, heq, -, -, -⟩ := part2 vox mo s os hch
      rw [heq] at h
      exact absurd (Prod.mk.injEq .. ▸ (Option.some.injEq .. ▸ h)) (by simp)
    · cases hb : g.chunkPopulated bu.chunk_id with
      | false => rfl
      | true => exact absurd hb hp
  · intro h
    exact Graph.update_block_unpopulated D g bu h

/-- Wrapper of `cacm_go_clears` for `clear_adjacent_solid_chunk_margins`
itself. -/
theorem Graph.cacm_clears (D : Dodeca) (g : Graph) {c cid : ChunkId}
    {mat : Material} {mo' : Bool} {s' os' : Option SlotId}
    (hch : g.get_chunk cid = some (.Populated (.Solid mat) mo' s' os'))
    (hex : ∃ p ∈ axisDirPairs, Graph.get_chunk_neighbor D g c p.1 p.2 = some cid) :
    (g.clear_adjacent_solid_chunk_margins D c).get_chunk cid
      = some (.Populated ((VoxelData.Solid mat).clear_margin g.dimension) mo'
          none (s'.or os')) := by
  unfold Graph.clear_adjacent_solid_chunk_margins
  exact Graph.cacm_go_clears D c cid mat mo' s' os' g.dimension g.neighbor
    axisDirPairs g rfl rfl hch hex

/-- Reduction of `populate_chunk` once the incoming data (with margin cleared
or not) is known. -/
theorem Graph.populate_chunk_some (D : Dodeca) (g : Graph) (c : ChunkId)
    (new_data : VoxelData) (modified : Bool) (nd' : VoxelData)
    (hstep1 : (if new_data.is_solid then
        (g.any_modified_neighbor D c axisDirPairs).map fun b =>
          if b then new_data.clear_margin g.dimension else new_data
      else some new_data) = some nd') :
    g.populate_chunk D c new_data modified =
      (match (if modified then g.clear_adjacent_solid_chunk_margins D c
          else g).nodes c.node with
       | none => none
       | some _ => some ((if modified then
            g.clear_adjacent_solid_chunk_margins D c else g).set_chunk c
              (.Populated nd' modified none none))) := by
  unfold Graph.populate_chunk
  rw [hstep1]

/-- C4: `populate_chunk` clears the margin of the incoming data whenever it
is `Solid` and one of the (up to six) chunk-neighbors is `Populated` with its
`modified` flag set; and whenever the committed chunk is itself marked
modified, it clears the margins of every adjacent chunk that is both
`Populated` and `Solid` (retiring that chunk's surface handle).  Hypotheses:
neighbor lookups cannot panic and the target node is present. -/
theorem claim_C4_populate_chunk_margins (D : Dodeca) (g : Graph) (c : ChunkId)
    (new_data : VoxelData) (modified : Bool)
    (hsafe : ∀ p ∈ axisDirPairs, g.neighborLookupSafe D c p = true)
    (hnode : (g.nodes c.node).isSome = true) :
    (new_data.is_solid = true →
      (∃ p ∈ axisDirPairs, g.neighborModified D c p = true) →
      ∃ g'', g.populate_chunk D c new_data modified = some g'' ∧
        g''.get_chunk c = some (.Populated (new_data.clear_margin g.dimension)
          modified none none)) ∧
    (modified = true →
      ∀ p ∈ axisDirPairs, ∀ cid,
        Graph.get_chunk_neighbor D g c p.1 p.2 = some cid → cid ≠ c →
        ∀ mat mo' s' os',
          g.get_chunk cid = some (.Populated (.Solid mat) mo' s' os') →
          ∃ g'', g.populate_chunk D c new_data modified = some g'' ∧
            g''.get_chunk cid = some (.Populated
              ((VoxelData.Solid mat).clear_margin g.dimension) mo' none
              (s'.or os'))) := by
  have hspec := Graph.any_modified_neighbor_spec D g c axisDirPairs hsafe
  have hnode2 : ∀ gq : Graph,
      (gq = g.clear_adjacent_solid_chunk_margins D c ∨ gq = g) →
      ∃ nd, gq.nodes c.node = some nd := by
    intro gq hgq
    have hsome : (gq.nodes c.node).isSome = true := by
      rcases hgq with h | h
      · rw [h, Graph.cacm_nodes_isSome]; exact hnode
      · rw [h]; exact hnode
    cases hcase : gq.nodes c.node with
    | none => rw [hcase] at hsome; simp at hsome
    | some nd => exact ⟨nd, rfl⟩
  constructor
  · -- Part 1: a solid chunk next to a modified neighbor is committed with a
    -- cleared margin.
    intro hsolid hex
    have hany : axisDirPairs.any (g.neighborModified D c) = true := by
      rcases hex with ⟨p, hp, hm⟩
      exact List.any_eq_true.mpr ⟨p, hp, hm⟩
    have hstep1 : (if new_data.is_solid then
        (g.any_modified_neighbor D c axisDirPairs).map fun b =>
          if b then new_data.clear_margin g.dimension else new_data
      else some new_data) = some (new_data.clear_margin g.dimension) := by
      rw [if_pos hsolid, hspec, hany]
      simp
    rw [Graph.populate_chunk_some D g c new_data modified _ hstep1]
    cases modified with
    | true =>
      rw [if_pos rfl]
      obtain ⟨nd2, hnd2⟩ := hnode2 _ (Or.inl rfl)
      rw [hnd2]
      exact ⟨_, rfl, Graph.get_set_self hnd2 _⟩
    | false =>
      rw [if_neg (by simp)]
      obtain ⟨nd2, hnd2⟩ := hnode2 _ (Or.inr rfl)
      rw [hnd2]
      exact ⟨_, rfl, Graph.get_set_self hnd2 _⟩
  · -- Part 2: committing a modified chunk force-clears adjacent solid
    -- populated chunks.
    intro hmod p hp cid hgcn hne mat mo' s' os' hch
    subst hmod
    have hcleared := Graph.cacm_clears D g (c := c) hch ⟨p, hp, hgcn⟩
    have hstep1 : ∃ nd', (if new_data.is_solid then
        (g.any_modified_neighbor D c axisDirPairs).map fun b =>
          if b then new_data.clear_margin g.dimension else new_data
      else some new_data) = some nd' := by
      by_cases hsolid : new_data.is_solid = true
      · rw [if_pos hsolid, hspec]
        exact ⟨_, rfl⟩
      · rw [if_neg hsolid]
        exact ⟨_, rfl⟩
    obtain ⟨nd', hstep1⟩ := hstep1
    rw [Graph.populate_chunk_some D g c new_data true _ hstep1]
    rw [if_pos rfl]
    obtain ⟨nd2, hnd2⟩ := hnode2 _ (Or.inl rfl)
    rw [hnd2]
    refine ⟨_, rfl, ?_⟩
    rw [Graph.get_set_ne hne]
    exact hcleared

/-- Witness for C3 on the concrete one-node graph `g0`. -/
theorem claim_C3_update_block_witness :
    (Graph.update_block D0 g0 bu0 = some (g0, false)
      ↔ g0.chunkPopulated bu0.chunk_id = false) ∧
    (∀ vox mo s os, g0.get_chunk bu0.chunk_id = some (.Populated vox mo s os) →
      ∃ g' arr, Graph.update_block D0 g0 bu0 = some (g', true) ∧
        g'.get_chunk bu0.chunk_id
          = some (.Populated (.Dense arr) true none (s.or os)) ∧
        arr.getD (bu0.coords.to_index g0.dimension) default = bu0.new_material ∧
        arr.length = (g0.dimension + 2) ^ 3) :=
  claim_C3_update_block D0 g0 bu0 (by decide) (by decide) (by decide)
    (by intro arr mo s os h; simp [Graph.get_chunk, g0, nd0] at h)

/-- Witness for C4 on the concrete one-node graph `g0`. -/
theorem claim_C4_populate_chunk_margins_witness :
    ((VoxelData.Solid Material.Sand).is_solid = true →
      (∃ p ∈ axisDirPairs,
        Graph.neighborModified D0 g0 (ChunkId.mk 0 0) p = true) →
      ∃ g'', Graph.populate_chunk D0 g0 (ChunkId.mk 0 0)
          (VoxelData.Solid Material.Sand) true = some g'' ∧
        g''.get_chunk (ChunkId.mk 0 0) = some (.Populated
          ((VoxelData.Solid Material.Sand).clear_margin g0.dimension)
          true none none)) ∧
    (true = true →
      ∀ p ∈ axisDirPairs, ∀ cid,
        Graph.get_chunk_neighbor D0 g0 (ChunkId.mk 0 0) p.1 p.2 = some cid →
        cid ≠ ChunkId.mk 0 0 →
        ∀ mat mo' s' os',
          g0.get_chunk cid = some (.Populated (.Solid mat) mo' s' os') →
          ∃ g'', Graph.populate_chunk D0 g0 (ChunkId.mk 0 0)
              (VoxelData.Solid Material.Sand) true = some g'' ∧
            g''.get_chunk cid = some (.Populated
              ((VoxelData.Solid mat).clear_margin g0.dimension) mo' none
              (s'.or os'))) :=
  claim_C4_populate_chunk_margins D0 g0 (ChunkId.mk 0 0)
    (VoxelData.Solid Material.Sand) true (by decide) (by decide)

/-- `drive_go` decrements `fill` once per drained result. -/
theorem drive_go_fill :
    ∀ (items : List LoadedChunk) (fill : Nat) (g : Graph) (r : Nat × Graph),
      drive_go items fill g = some r → r.1 = fill - items.length := by
  intro items
  induction items with
  | nil =>
    intro fill g r h
    simp [drive_go] at h
    rw [← h]
    simp
  | cons chunk rest ih =>
    intro fill g r h
    unfold drive_go at h
    cases hn : g.nodes chunk.node with
    | none => rw [hn] at h; exact absurd h (by simp)
    | some nd =>
      rw [hn] at h
      have := ih (fill - 1) _ r h
      rw [this]
      simp only [List.length_cons]
      omega

/-- A batch of submissions all succeeds as long as the occupancy equation
holds and enough capacity is free. -/
theorem loadN_all_true :
    ∀ (subs : List (NodeId × ChunkParams)) (l : ChunkLoader),
      l.sendQueue.length + l.processing.length + l.recvQueue.length = l.fill →
      l.fill + subs.length ≤ l.capacity →
      (ChunkLoader.loadN l subs).2 = true := by
  intro subs
  induction subs with
  | nil => intro l _ _; rfl
  | cons sub rest ih =>
    intro l hsum hcap
    obtain ⟨n, p⟩ := sub
    have hfill : l.fill ≠ l.capacity := by
      simp only [List.length_cons] at hcap
      omega
    have hsend : l.sendQueue.length ≠ l.capacity := by
      simp only [List.length_cons] at hcap
      omega
    unfold ChunkLoader.loadN
    unfold ChunkLoader.load
    rw [if_neg hfill, if_neg hsend]
    have hok := ih { l with
        fill := l.fill + 1
        sendQueue := l.sendQueue ++ [⟨n, p⟩] }
      (by simp only [List.length_append, List.length_cons, List.length_nil]; omega)
      (by simp only [List.length_cons] at hcap ⊢; omega)
    cases hres : ChunkLoader.loadN { l with
        fill := l.fill + 1
        sendQueue := l.sendQueue ++ [⟨n, p⟩] } rest with
    | mk l2 ok2 =>
      rw [hres] at hok
      simp only at hok
      dsimp only
      rw [hres]
      simp [hok]

/-- C7: the in-flight counter never exceeds capacity: a full counter makes
`load` refuse and submit nothing, every successful submission increments
`fill` by one (preserving the occupancy invariant), the background pipeline
leaves `fill` untouched, and `drive` decrements `fill` once per drained
completion — so after `drive` processes `k` completions, any `k` new
submissions succeed immediately. -/
theorem claim_C7_loader_backpressure (l : ChunkLoader) (hwf : l.wf) :
    l.fill ≤ l.capacity ∧
    (∀ n p, l.fill = l.capacity → l.load n p = (l, false)) ∧
    (∀ n p l', l.load n p = (l', true) → l'.fill = l.fill + 1 ∧ l'.wf) ∧
    (∀ l2, WorkerStep l l2 → l2.wf ∧ l2.fill = l.fill) ∧
    (∀ g l3 g', l.drive g = some (l3, g') →
      l3.fill = l.fill - l.recvQueue.length ∧ l3.wf ∧
      (∀ subs : List (NodeId × ChunkParams),
        subs.length ≤ l.recvQueue.length → (l3.loadN subs).2 = true)) := by
  obtain ⟨hsum, hcap⟩ := hwf
  refine ⟨hcap, ?_, ?_, ?_, ?_⟩
  · intro n p hfull
    unfold ChunkLoader.load
    rw [if_pos hfull]
  · intro n p l' h
    unfold ChunkLoader.load at h
    by_cases h1 : l.fill = l.capacity
    · rw [if_pos h1] at h
      exact absurd h (by simp)
    · rw [if_neg h1] at h
      by_cases h2 : l.sendQueue.length = l.capacity
      · rw [if_pos h2] at h
        exact absurd h (by simp)
      · rw [if_neg h2] at h
        have hl' : l' = { l with
            fill := l.fill + 1
            sendQueue := l.sendQueue ++ [⟨n, p⟩] } := by
          have := congrArg Prod.fst h
          simpa using this.symm
        subst hl'
        refine ⟨rfl, ?_, ?_⟩
        · simp only [List.length_append, List.length_cons, List.length_nil]
          omega
        · simp only
          omega
  · intro l2 hstep
    cases hstep with
    | accept d rest h =>
      have hlen : l.sendQueue.length = rest.length + 1 := by rw [h]; rfl
      refine ⟨⟨?_, ?_⟩, rfl⟩
      · simp only [List.length_append, List.length_cons, List.length_nil]
        omega
      · exact hcap
    | complete pre post item h hroom =>
      have hlen : l.processing.length = pre.length + post.length + 1 := by
        rw [h]; simp only [List.length_append, List.length_cons]; omega
      refine ⟨⟨?_, ?_⟩, rfl⟩
      · simp only [List.length_append, List.length_cons, List.length_nil]
        omega
      · exact hcap
  · intro g l3 g' h
    unfold ChunkLoader.drive at h
    cases hgo : drive_go l.recvQueue l.fill g with
    | none => rw [hgo] at h; exact absurd h (by simp)
    | some r =>
      rw [hgo] at h
      simp only [Option.map_some', Option.some.injEq] at h
      have hfill := drive_go_fill l.recvQueue l.fill g r hgo
      have hl3 : l3 = { l with
          recvQueue := []
          fill := r.1 } := by
        have := congrArg Prod.fst h
        simpa using this.symm
      subst hl3
      refine ⟨by simpa using hfill, ⟨?_, ?_⟩, ?_⟩
      · simp only [List.length_nil]
        rw [hfill]
        omega
      · simp only
        rw [hfill]
        omega
      · intro subs hsubs
        refine loadN_all_true subs _ ?_ ?_
        · simp only [List.length_nil]
          rw [hfill]
          omega
        · simp only
          rw [hfill]
          omega

/-- Witness for C7 on a loader with one pending completion. -/
theorem claim_C7_loader_backpressure_witness :
    (ChunkLoader.mk 2 1 [] [] [⟨0, 0, VoxelData.Solid Material.Dirt⟩]).fill
      ≤ (ChunkLoader.mk 2 1 [] [] [⟨0, 0, VoxelData.Solid Material.Dirt⟩]).capacity ∧
    (∀ n p, (ChunkLoader.mk 2 1 [] [] [⟨0, 0, VoxelData.Solid Material.Dirt⟩]).fill
        = (ChunkLoader.mk 2 1 [] [] [⟨0, 0, VoxelData.Solid Material.Dirt⟩]).capacity →
      (ChunkLoader.mk 2 1 [] [] [⟨0, 0, VoxelData.Solid Material.Dirt⟩]).load n p
        = (ChunkLoader.mk 2 1 [] [] [⟨0, 0, VoxelData.Solid Material.Dirt⟩], false)) ∧
    (∀ n p l', (ChunkLoader.mk 2 1 [] [] [⟨0, 0, VoxelData.Solid Material.Dirt⟩]).load n p
        = (l', true) →
      l'.fill = (ChunkLoader.mk 2 1 [] [] [⟨0, 0, VoxelData.Solid Material.Dirt⟩]).fill + 1
        ∧ l'.wf) ∧
    (∀ l2, WorkerStep (ChunkLoader.mk 2 1 [] [] [⟨0, 0, VoxelData.Solid Material.Dirt⟩]) l2 →
      l2.wf ∧ l2.fill = (ChunkLoader.mk 2 1 [] [] [⟨0, 0, VoxelData.Solid Material.Dirt⟩]).fill) ∧
    (∀ g l3 g',
      (ChunkLoader.mk 2 1 [] [] [⟨0, 0, VoxelData.Solid Material.Dirt⟩]).drive g
        = some (l3, g') →
      l3.fill = (ChunkLoader.mk 2 1 [] [] [⟨0, 0, VoxelData.Solid Material.Dirt⟩]).fill
          - (ChunkLoader.mk 2 1 [] [] [⟨0, 0, VoxelData.Solid Material.Dirt⟩]).recvQueue.length ∧
        l3.wf ∧
        (∀ subs : List (NodeId × ChunkParams),
          subs.length ≤ (ChunkLoader.mk 2 1 [] [] [⟨0, 0, VoxelData.Solid Material.Dirt⟩]).recvQueue.length →
          (l3.loadN subs).2 = true)) :=
  claim_C7_loader_backpressure
    (ChunkLoader.mk 2 1 [] [] [⟨0, 0, VoxelData.Solid Material.Dirt⟩])
    ⟨by simp, by simp⟩

/-- Writing a populated chunk anywhere keeps every populated chunk
populated. -/
theorem Graph.set_chunk_populated_preserved {g : Graph} {c : ChunkId}
    {ch : Chunk} (hch : ch.isPopulated = true) {c' : ChunkId}
    (h : g.chunkPopulated c' = true) :
    (g.set_chunk c ch).chunkPopulated c' = true := by
  by_cases hcc : c' = c
  · subst hcc
    unfold Graph.chunkPopulated at h ⊢
    cases hnd : g.nodes c'.node with
    | none => unfold Graph.get_chunk at h; rw [hnd] at h; simp at h
    | some nd =>
      rw [Graph.get_set_self hnd]
      exact hch
  · unfold Graph.chunkPopulated at h ⊢
    rw [Graph.get_set_ne hcc]
    exact h

/-- Inversion of a successful `populate_chunk`. -/
theorem Graph.populate_chunk_inv {D : Dodeca} {g : Graph} {c : ChunkId}
    {new_data : VoxelData} {modified : Bool} {g'' : Graph}
    (h : g.populate_chunk D c new_data modified = some g'') :
    ∃ nd' ndd,
      (if modified then g.clear_adjacent_solid_chunk_margins D c
        else g).nodes c.node = some ndd ∧
      g'' = (if modified then g.clear_adjacent_solid_chunk_margins D c
        else g).set_chunk c (.Populated nd' modified none none) := by
  unfold Graph.populate_chunk at h
  cases h1 : (if new_data.is_solid then
      (g.any_modified_neighbor D c axisDirPairs).map fun b =>
        if b then new_data.clear_margin g.dimension else new_data
    else some new_data) with
  | none => rw [h1] at h; exact absurd h (by simp)
  | some nd' =>
    rw [h1] at h
    dsimp only at h
    cases h2 : (if modified then g.clear_adjacent_solid_chunk_margins D c
        else g).nodes c.node with
    | none => rw [h2] at h; exact absurd h (by simp)
    | some ndd =>
      rw [h2] at h
      simp only [Option.some.injEq] at h
      exact ⟨nd', ndd, rfl, h.symm⟩

/-- The drain loop of `drive` keeps every populated chunk populated. -/
theorem drive_go_preserves_populated :
    ∀ (items : List LoadedChunk) (fill : Nat) (g : Graph) (r : Nat × Graph),
      drive_go items fill g = some r →
      ∀ c', g.chunkPopulated c' = true → r.2.chunkPopulated c' = true := by
  intro items
  induction items with
  | nil =>
    intro fill g r h c' hc
    simp [drive_go] at h
    rw [← h]
    exact hc
  | cons chunk rest ih =>
    intro fill g r h c' hc
    unfold drive_go at h
    cases hn : g.nodes chunk.node with
    | none => rw [hn] at h; exact absurd h (by simp)
    | some nd =>
      rw [hn] at h
      exact ih _ _ r h c'
        (Graph.set_chunk_populated_preserved (by rfl) hc)

/-- The inner loop of `load_chunks`: populated chunks stay untouched, the
only transition performed is `Fresh` to `Generating`, and a full in-flight
counter forces a complete no-op. -/
theorem load_chunks_go_spec
    (mkParams : Nat → Graph → NodeId → Vertex → Option ChunkParams)
    (dimension : Nat) (node : NodeId) :
    ∀ (vs : List Vertex) (l : ChunkLoader) (g : Graph) (l' : ChunkLoader)
      (g' : Graph),
      load_chunks_go mkParams dimension node vs l g = some (l', g') →
      (∀ c', g.chunkPopulated c' = true → g'.chunkPopulated c' = true) ∧
      (∀ c', g'.get_chunk c' ≠ g.get_chunk c' →
        g.get_chunk c' = some .Fresh ∧ g'.get_chunk c' = some .Generating) ∧
      (l.fill = l.capacity → l' = l ∧ g' = g) := by
  intro vs
  induction vs with
  | nil =>
    intro l g l' g' h
    simp [load_chunks_go] at h
    refine ⟨?_, ?_, ?_⟩
    · intro c' hc; rw [← h.2]; exact hc
    · intro c' hne; rw [← h.2] at hne; exact absurd rfl hne
    · intro _; exact ⟨h.1.symm, h.2.symm⟩
  | cons v rest ih =>
    intro l g l' g' h
    unfold load_chunks_go at h
    cases hn : g.nodes node with
    | none => rw [hn] at h; exact absurd h (by simp)
    | some nd =>
      simp only [hn] at h
      have hfresh_or : nd.chunks v = Chunk.Fresh ∨ nd.chunks v ≠ Chunk.Fresh := by
        by_cases hf : nd.chunks v = Chunk.Fresh
        · exact Or.inl hf
        · exact Or.inr hf
      -- A helper consuming the result of one step.
      have compose : ∀ (g1 : Graph),
          load_chunks_go mkParams dimension node rest l g1 = some (l', g') →
          (∀ c', g1.chunkPopulated c' = true → g'.chunkPopulated c' = true) →
          True := fun _ _ _ => trivial
      clear compose
      -- Case on the chunk state.
      cases hchv : nd.chunks v with
      | Fresh =>
        simp only [hchv] at h
        cases hmk : mkParams dimension g node v with
        | none =>
          simp only [hmk] at h
          exact ih l g l' g' h
        | some params =>
          simp only [hmk] at h
          cases hload : l.load node params with
          | mk l2 ok =>
            cases ok with
            | true =>
              simp only [hload] at h
              -- One chunk moved Fresh → Generating; compose with the rest.
              have hchunk : g.get_chunk ⟨node, v⟩ = some Chunk.Fresh := by
                unfold Graph.get_chunk
                rw [hn]
                simp [hchv]
              have hnode : g.nodes (ChunkId.mk node v).node = some nd := hn
              obtain ⟨ih1, ih2, ih3⟩ := ih l2 _ l' g' h
              refine ⟨?_, ?_, ?_⟩
              · intro c' hc
                refine ih1 c' ?_
                have hcv : c' ≠ ChunkId.mk node v := by
                  intro hcontra
                  subst hcontra
                  unfold Graph.chunkPopulated at hc
                  rw [hchunk] at hc
                  simp [Chunk.isPopulated] at hc
                unfold Graph.chunkPopulated at hc ⊢
                rw [Graph.get_set_ne hcv]
                exact hc
              · intro c' hne
                by_cases hcv : c' = ChunkId.mk node v
                · refine ⟨?_, ?_⟩
                  · rw [hcv]; exact hchunk
                  · by_cases hstill : g'.get_chunk c'
                        = (g.set_chunk (ChunkId.mk node v) Chunk.Generating).get_chunk c'
                    · rw [hstill, hcv, Graph.get_set_self hnode]
                    · obtain ⟨h1, -⟩ := ih2 c' hstill
                      rw [hcv, Graph.get_set_self hnode] at h1
                      exact absurd h1 (by simp)
                · by_cases hstep : g'.get_chunk c'
                      = (g.set_chunk (ChunkId.mk node v) Chunk.Generating).get_chunk c'
                  · rw [Graph.get_set_ne hcv] at hstep
                    exact absurd hstep hne
                  · have := ih2 c' hstep
                    rw [Graph.get_set_ne hcv] at this
                    exact ⟨this.1, this.2⟩
              · intro hfull
                exfalso
                unfold ChunkLoader.load at hload
                rw [if_pos hfull] at hload
                exact absurd (congrArg Prod.snd hload) (by simp)
            | false =>
              simp only [hload] at h
              have hl2 : l2 = l := by
                unfold ChunkLoader.load at hload
                by_cases h1 : l.fill = l.capacity
                · rw [if_pos h1] at hload
                  simpa using (congrArg Prod.fst hload).symm
                · rw [if_neg h1] at hload
                  by_cases h2 : l.sendQueue.length = l.capacity
                  · rw [if_pos h2] at hload
                    simpa using (congrArg Prod.fst hload).symm
                  · rw [if_neg h2] at hload
                    exact absurd (congrArg Prod.snd hload) (by simp)
              subst hl2
              exact ih l2 g l' g' h
      | Generating =>
        simp only [hchv] at h
        exact ih l g l' g' h
      | Populated vox mo s os =>
        simp only [hchv] at h
        exact ih l g l' g' h

/-- `load_chunks` over a node list: populated chunks stay untouched, the
only transition performed is `Fresh` to `Generating`, and a full in-flight
counter forces a complete no-op. -/
theorem load_chunks_spec
    (mkParams : Nat → Graph → NodeId → Vertex → Option ChunkParams)
    (dimension : Nat) :
    ∀ (nodes : List NodeId) (l : ChunkLoader) (g : Graph) (l' : ChunkLoader)
      (g' : Graph),
      ChunkLoader.load_chunks mkParams dimension l g nodes = some (l', g') →
      (∀ c', g.chunkPopulated c' = true → g'.chunkPopulated c' = true) ∧
      (∀ c', g'.get_chunk c' ≠ g.get_chunk c' →
        g.get_chunk c' = some .Fresh ∧ g'.get_chunk c' = some .Generating) ∧
      (l.fill = l.capacity → l' = l ∧ g' = g) := by
  intro nodes
  induction nodes with
  | nil =>
    intro l g l' g' h
    simp [ChunkLoader.load_chunks] at h
    refine ⟨?_, ?_, ?_⟩
    · intro c' hc; rw [← h.2]; exact hc
    · intro c' hne; rw [← h.2] at hne; exact absurd rfl hne
    · intro _; exact ⟨h.1.symm, h.2.symm⟩
  | cons node rest ih =>
    intro l g l' g' h
    unfold ChunkLoader.load_chunks at h
    rw [List.foldlM_cons] at h
    simp only [bind, Option.bind] at h
    cases hgo : load_chunks_go mkParams dimension node vertexList l g with
    | none => rw [hgo] at h; exact absurd h (by simp)
    | some st1 =>
      rw [hgo] at h
      obtain ⟨go1, go2, go3⟩ :=
        load_chunks_go_spec mkParams dimension node vertexList l g st1.1 st1.2
          (by rw [hgo])
      have hrest : ChunkLoader.load_chunks mkParams dimension st1.1 st1.2 rest
          = some (l', g') := by
        unfold ChunkLoader.load_chunks
        exact h
      obtain ⟨ih1, ih2, ih3⟩ := ih st1.1 st1.2 l' g' hrest
      refine ⟨?_, ?_, ?_⟩
      · intro c' hc
        exact ih1 c' (go1 c' hc)
      · intro c' hne
        by_cases hstep : st1.2.get_chunk c' = g.get_chunk c'
        · have hrest_ne : g'.get_chunk c' ≠ st1.2.get_chunk c' := by
            rw [hstep]; exact hne
          have := ih2 c' hrest_ne
          rw [hstep] at this
          exact this
        · have hfirst := go2 c' hstep
          by_cases hsecond : g'.get_chunk c' = st1.2.get_chunk c'
          · rw [hsecond, hfirst.2]
            exact ⟨hfirst.1, rfl⟩
          · have := ih2 c' hsecond
            rw [hfirst.2] at this
            exact absurd this.1 (by simp)
      · intro hfull
        obtain ⟨hl1, hg1⟩ := go3 hfull
        rw [hl1] at ih3
        obtain ⟨hl', hg'⟩ := ih3 hfull
        rw [hg1] at hg'
        exact ⟨hl', hg'⟩

/-- C9: the chunk lifecycle only moves forward — none of `populate_chunk`,
`update_block`, solid-margin clearing, `load_chunks` or `drive` ever moves a
`Populated` chunk back to `Fresh` or `Generating`; `load_chunks` performs
only the `Fresh` to `Generating` transition, and none at all when the
in-flight counter is full (submissions cannot succeed). -/
theorem claim_C9_lifecycle_forward :
    (∀ (D : Dodeca) (g : Graph) (c : ChunkId) (nd : VoxelData) (mo : Bool)
      (g'' : Graph), g.populate_chunk D c nd mo = some g'' →
      ∀ c', g.chunkPopulated c' = true → g''.chunkPopulated c' = true) ∧
    (∀ (D : Dodeca) (g : Graph) (bu : BlockUpdate) (out : Graph × Bool),
      g.update_block D bu = some out →
      ∀ c', g.chunkPopulated c' = true → out.1.chunkPopulated c' = true) ∧
    (∀ (g : Graph) (c c' : ChunkId), g.chunkPopulated c' = true →
      (g.clear_solid_chunk_margin c).1.chunkPopulated c' = true) ∧
    (∀ (D : Dodeca) (g : Graph) (c c' : ChunkId), g.chunkPopulated c' = true →
      (g.clear_adjacent_solid_chunk_margins D c).chunkPopulated c' = true) ∧
    (∀ (mkParams : Nat → Graph → NodeId → Vertex → Option ChunkParams)
      (dimension : Nat) (l : ChunkLoader) (g : Graph) (nodes : List NodeId)
      (l' : ChunkLoader) (g' : Graph),
      ChunkLoader.load_chunks mkParams dimension l g nodes = some (l', g') →
      (∀ c', g.chunkPopulated c' = true → g'.chunkPopulated c' = true) ∧
      (∀ c', g'.get_chunk c' ≠ g.get_chunk c' →
        g.get_chunk c' = some .Fresh ∧ g'.get_chunk c' = some .Generating) ∧
      (l.fill = l.capacity → l' = l ∧ g' = g)) ∧
    (∀ (l : ChunkLoader) (g : Graph) (l' : ChunkLoader) (g' : Graph),
      l.drive g = some (l', g') →
      ∀ c', g.chunkPopulated c' = true → g'.chunkPopulated c' = true) := by
  refine ⟨?_, ?_, ?_, ?_, ?_, ?_⟩
  · intro D g c nd mo g'' h c' hc
    obtain ⟨nd', ndd, _, hg''⟩ := Graph.populate_chunk_inv h
    subst hg''
    refine Graph.set_chunk_populated_preserved (by rfl) ?_
    cases mo with
    | true =>
      rw [if_pos rfl]
      exact Graph.cacm_preserves_populated D g hc
    | false =>
      rw [if_neg (by simp)]
      exact hc
  · intro D g bu out h c' hc
    by_cases hp : g.chunkPopulated bu.chunk_id = true
    · have : ∃ vox mo s os,
          g.get_chunk bu.chunk_id = some (.Populated vox mo s os) := by
        unfold Graph.chunkPopulated at hp
        cases hch : g.get_chunk bu.chunk_id with
        | none => rw [hch] at hp; simp at hp
        | some ch =>
          rw [hch] at hp
          cases ch with
          | Populated vox mo s os => exact ⟨vox, mo, s, os, rfl⟩
          | Fresh => simp [Chunk.isPopulated] at hp
          | Generating => simp [Chunk.isPopulated] at hp
      obtain ⟨vox, mo, s, os, hch⟩ := this
      rw [Graph.update_block_populated D g bu hch] at h
      dsimp only at h
      by_cases hidx : bu.coords.to_index g.dimension
          < ((if vox.is_solid then vox.clear_margin g.dimension
            else vox).data_mut_array g.dimension).length
      · rw [if_pos hidx] at h
        simp only [Option.some.injEq] at h
        rw [← h]
        exact Graph.cacm_preserves_populated D _
          (Graph.set_chunk_populated_preserved (by rfl) hc)
      · rw [if_neg hidx] at h
        exact absurd h (by simp)
    · have hfalse : g.chunkPopulated bu.chunk_id = false := by
        cases hb : g.chunkPopulated bu.chunk_id with
        | false => rfl
        | true => exact absurd hb hp
      rw [Graph.update_block_unpopulated D g bu hfalse] at h
      simp only [Option.some.injEq] at h
      rw [← h]
      exact hc
  · intro g c c' hc
    exact Graph.csm_preserves_populated hc
  · intro D g c c' hc
    exact Graph.cacm_preserves_populated D g hc
  · intro mkParams dimension l g nodes l' g' h
    exact load_chunks_spec mkParams dimension nodes l g l' g' h
  · intro l g l' g' h c' hc
    unfold ChunkLoader.drive at h
    cases hgo : drive_go l.recvQueue l.fill g with
    | none => rw [hgo] at h; exact absurd h (by simp)
    | some r =>
      rw [hgo] at h
      simp only [Option.map_some', Option.some.injEq] at h
      have hg' : g' = r.2 := by
        have := congrArg Prod.snd h
        simpa using this.symm
      rw [hg']
      exact drive_go_preserves_populated l.recvQueue l.fill g r hgo c' hc

/-- Witness for C9: margin clearing on the concrete graph `g0` keeps its
populated origin chunk populated. -/
theorem claim_C9_lifecycle_forward_witness :
    (Graph.clear_solid_chunk_margin g0 (ChunkId.mk 0 0)).1.chunkPopulated
      (ChunkId.mk 0 0) = true :=
  claim_C9_lifecycle_forward.2.2.1 g0 (ChunkId.mk 0 0) (ChunkId.mk 0 0)
    (by decide)

/-- One lower-boundary check fails exactly when the axis triggers, the
rejection does not exclude the neighbor, and the neighbor node is absent. -/
theorem lowerStep_none_iff {M N : Type} (D : Dodeca) (geom : CastGeom M N)
    (g : Graph) (chunk : ChunkId) (m : M) (current : ℚ) (a : Fin 3)
    (visited : List ChunkId) (queue : List (ChunkId × M)) :
    lowerStep D geom g chunk m current a visited queue = none ↔
      (geom.lowerTrigger chunk.vertex m current a = true ∧
        geom.nodeReject chunk.vertex m current a = false ∧
        g.neighbor chunk.node (D.canonical_sides chunk.vertex a) = none) := by
  unfold lowerStep
  cases hlt : geom.lowerTrigger chunk.vertex m current a with
  | false => simp
  | true =>
    rw [if_pos rfl]
    cases hrj : geom.nodeReject chunk.vertex m current a with
    | true => simp
    | false =>
      rw [if_neg (by simp)]
      cases hnb : g.neighbor chunk.node (D.canonical_sides chunk.vertex a) with
      | none => simp
      | some neighbor =>
        by_cases hmem : ChunkId.mk neighbor chunk.vertex ∈ visited
        · simp [hmem]
        · simp [hmem]

/-- The axis walk fails exactly when some axis triggers the lower boundary,
survives the bounding-sphere rejection, and has no neighbor node. -/
theorem axisLoop_none_iff {M N : Type} (D : Dodeca) (geom : CastGeom M N)
    (g : Graph) (chunk : ChunkId) (m : M) (current : ℚ) :
    ∀ (axs : List (Fin 3)) (visited : List ChunkId)
      (queue : List (ChunkId × M)),
      axisLoop D geom g chunk m current axs visited queue = none ↔
        ∃ a ∈ axs, geom.lowerTrigger chunk.vertex m current a = true ∧
          geom.nodeReject chunk.vertex m current a = false ∧
          g.neighbor chunk.node (D.canonical_sides chunk.vertex a) = none := by
  intro axs
  induction axs with
  | nil =>
    intro visited queue
    simp [axisLoop]
  | cons a rest ih =>
    intro visited queue
    unfold axisLoop
    cases h1 : lowerStep D geom g chunk m current a visited queue with
    | none =>
      simp only
      constructor
      · intro _
        exact ⟨a, List.mem_cons_self a rest,
          (lowerStep_none_iff D geom g chunk m current a visited queue).mp h1⟩
      · intro _
        trivial
    | some vq =>
      have hnotbad : ¬(geom.lowerTrigger chunk.vertex m current a = true ∧
          geom.nodeReject chunk.vertex m current a = false ∧
          g.neighbor chunk.node (D.canonical_sides chunk.vertex a) = none) := by
        intro hbad
        rw [← lowerStep_none_iff D geom g chunk m current a visited queue]
          at hbad
        rw [h1] at hbad
        exact absurd hbad (by simp)
      cases vq with
      | mk visited1 queue1 =>
        simp only
        rw [ih]
        constructor
        · rintro ⟨a', ha', hb⟩
          exact ⟨a', List.mem_cons_of_mem a ha', hb⟩
        · rintro ⟨a', ha', hb⟩
          rcases List.mem_cons.mp ha' with h | h
          · subst h; exact absurd hb hnotbad
          · exact ⟨a', h, hb⟩

/-- Inversion for the traversal closure. -/
theorem castReaches_inv {M N : Type} {D : Dodeca} {geom : CastGeom M N}
    {g : Graph} {t : ℚ} {s s₃ : CastState M N}
    (h : CastReaches D geom g t s s₃) :
    s₃ = s ∨ ∃ s₂, castStep D geom g t s = some s₂ ∧
      CastReaches D geom g t s₂ s₃ := by
  cases h with
  | refl s => exact Or.inl rfl
  | step s₁ s₂ s₃ hst h23 => exact Or.inr ⟨s₂, hst, h23⟩

/-- Every axis is in the walked list `[0, 1, 2]`. -/
theorem fin3_mem_axes (a : Fin 3) : a ∈ ([0, 1, 2] : List (Fin 3)) := by
  fin_cases a <;> simp

/-- The loop of `sphere_cast` returns `Err(OutOfBounds)` exactly when the
traversal reaches a state whose head chunk is unpopulated, or whose head
chunk's boundary checks demand a neighbor node that the graph lacks. -/
theorem castLoop_err_iff {M N : Type} (D : Dodeca) (geom : CastGeom M N)
    (g : Graph) (t : ℚ) :
    ∀ (fuel : Nat) (s : CastState M N)
      (res : Except SphereCastError (Option (GraphCastHit N))),
      castLoop D geom g t fuel s = some res →
      (res = .error .OutOfBounds ↔
        ∃ s', CastReaches D geom g t s s' ∧ StateErrs D geom g t s') := by
  intro fuel
  induction fuel with
  | zero =>
    intro s res h
    exact absurd h (by simp [castLoop])
  | succ fuel ih =>
    intro s res h
    unfold castLoop at h
    cases hq : s.queue with
    | nil =>
      simp only [hq] at h
      have hres : res = .ok s.hit := by
        simpa using h.symm
      constructor
      · intro hcontra
        rw [hres] at hcontra
        exact absurd hcontra (by simp)
      · rintro ⟨s', hr, he⟩
        exfalso
        rcases castReaches_inv hr with h' | ⟨s₂, hst, -⟩
        · subst h'
          obtain ⟨chunk, m, rest, hqe, -⟩ := he
          rw [hq] at hqe
          exact absurd hqe (by simp)
        · unfold castStep at hst
          simp only [hq] at hst
          exact absurd hst (by simp)
    | cons hd queue' =>
      obtain ⟨chunk, m⟩ := hd
      simp only [hq] at h
      have hunpop : ∀ (hcase : g.chunkPopulated chunk = false),
          (some (.error .OutOfBounds) :
            Option (Except SphereCastError (Option (GraphCastHit N))))
            = some res →
          (res = .error .OutOfBounds ↔
            ∃ s', CastReaches D geom g t s s' ∧ StateErrs D geom g t s') := by
        intro hcase h'
        have hres : res = .error .OutOfBounds := by simpa using h'.symm
        constructor
        · intro _
          exact ⟨s, CastReaches.refl s, chunk, m, queue', hq, Or.inl hcase⟩
        · intro _
          exact hres
      cases hch : g.get_chunk chunk with
      | none =>
        simp only [hch] at h
        exact hunpop (by unfold Graph.chunkPopulated; rw [hch]) h
      | some ch =>
        cases ch with
        | Fresh =>
          simp only [hch] at h
          exact hunpop (by
            unfold Graph.chunkPopulated
            rw [hch]
            rfl) h
        | Generating =>
          simp only [hch] at h
          exact hunpop (by
            unfold Graph.chunkPopulated
            rw [hch]
            rfl) h
        | Populated voxels mo sr osr =>
          have hpop : g.chunkPopulated chunk = true := by
            unfold Graph.chunkPopulated
            rw [hch]
            rfl
          simp only [hch] at h
          cases hax : axisLoop D geom g chunk m (currentOf s t) [0, 1, 2]
              s.visited queue' with
          | none =>
            simp only [hax] at h
            have hres : res = .error .OutOfBounds := by simpa using h.symm
            obtain ⟨a, -, hbad⟩ :=
              (axisLoop_none_iff D geom g chunk m (currentOf s t) [0, 1, 2]
                s.visited queue').mp hax
            constructor
            · intro _
              exact ⟨s, CastReaches.refl s, chunk, m, queue', hq,
                Or.inr ⟨hpop, a, hbad⟩⟩
            · intro _
              exact hres
          | some vq =>
            obtain ⟨v', q'⟩ := vq
            simp only [hax] at h
            have hst : castStep D geom g t s = some
                ⟨updatedHit geom chunk m voxels (currentOf s t) s.hit, v', q'⟩ := by
              unfold castStep
              simp only [hq, hch, hax]
            have IH := ih _ res h
            rw [IH]
            constructor
            · rintro ⟨s', hr, he⟩
              exact ⟨s', CastReaches.step s _ s' hst hr, he⟩
            · rintro ⟨s', hr, he⟩
              rcases castReaches_inv hr with h' | ⟨s₂', hst', hr'⟩
              · exfalso
                rw [h'] at he
                obtain ⟨chunk', m', rest', hqe, hd⟩ := he
                rw [hq] at hqe
                simp only [List.cons.injEq, Prod.mk.injEq] at hqe
                obtain ⟨⟨hc', hm'⟩, hr''⟩ := hqe
                subst hc'; subst hm'; subst hr''
                rcases hd with hd | ⟨-, a, h1, h2, h3⟩
                · rw [hpop] at hd
                  exact absurd hd (by simp)
                · have : axisLoop D geom g chunk m (currentOf s t) [0, 1, 2]
                      s.visited queue' = none :=
                    (axisLoop_none_iff D geom g chunk m (currentOf s t)
                      [0, 1, 2] s.visited queue').mpr
                      ⟨a, fin3_mem_axes a, h1, h2, h3⟩
                  rw [hax] at this
                  exact absurd this (by simp)
              · rw [hst] at hst'
                simp only [Option.some.injEq] at hst'
                rw [← hst'] at hr'
                exact ⟨s', hr', he⟩

/-- C2: `sphere_cast` returns `Err(OutOfBounds)` if and only if its
breadth-first traversal reaches a state where either the chunk about to be
visited is not `Populated`, or a cell-boundary check fires whose
bounding-sphere rejection fails to exclude a neighbor that does not exist in
the graph; in every other case it returns `Ok`. -/
theorem claim_C2_sphere_cast_out_of_bounds {M N : Type} (D : Dodeca)
    (geom : CastGeom M N) (g : Graph) (fuel : Nat) (pos_node : NodeId)
    (pos_local : M) (tanh_distance : ℚ)
    (res : Except SphereCastError (Option (GraphCastHit N)))
    (h : sphere_cast D geom g fuel pos_node pos_local tanh_distance
      = some res) :
    res = .error .OutOfBounds ↔
      ∃ s', CastReaches D geom g tanh_distance
          (initCastState pos_node pos_local) s' ∧
        StateErrs D geom g tanh_distance s' :=
  castLoop_err_iff D geom g tanh_distance fuel
    (initCastState pos_node pos_local) res h

/-- Witness for C2: on the one-node graph `g0` with the trivial geometry,
the cast completes with `Ok(None)` and the characterization applies. -/
theorem claim_C2_sphere_cast_out_of_bounds_witness :
    ((.ok none : Except SphereCastError (Option (GraphCastHit Unit)))
        = .error .OutOfBounds ↔
      ∃ s', CastReaches D0 geom0 g0 0 (initCastState 0 ()) s' ∧
        StateErrs D0 geom0 g0 0 s') :=
  claim_C2_sphere_cast_out_of_bounds D0 geom0 g0 2 0 () 0 (.ok none) rfl

/-- Closed form of the boost `translate(origin, b)`. -/
theorem translate_origin_eq (b : Vec4) (hs : (1 : ℚ) + b.w ≠ 0) :
    translate origin b = Mat4.mk
      (1 + b.x * b.x / (1 + b.w)) (b.x * b.y / (1 + b.w))
      (b.x * b.z / (1 + b.w)) b.x
      (b.y * b.x / (1 + b.w)) (1 + b.y * b.y / (1 + b.w))
      (b.y * b.z / (1 + b.w)) b.y
      (b.z * b.x / (1 + b.w)) (b.z * b.y / (1 + b.w))
      (1 + b.z * b.z / (1 + b.w)) b.z
      b.x b.y b.z b.w := by
  unfold translate Mat4.add Mat4.sub Mat4.smul Mat4.id minkowski_outer_product
    Vec4.add origin mip
  apply Mat4.ext <;> (dsimp only; field_simp; try ring)

section

set_option maxHeartbeats 1600000

/-- The boost is its own Minkowski-transpose inverse on the right:
`translate(origin, b) * mtranspose(translate(origin, b)) = I` for a
Lorentz-normalized future-pointing `b`. -/
theorem boost_mul_mtranspose (b : Vec4) (hb : mip b b = -1) (hw : 0 < b.w) :
    Mat4.mul (translate origin b) (mtranspose (translate origin b))
      = Mat4.id := by
  have hs : (1 : ℚ) + b.w ≠ 0 := by linarith
  have hq : b.x * b.x + b.y * b.y + b.z * b.z = b.w * b.w - 1 := by
    unfold mip at hb
    linarith
  rw [translate_origin_eq b hs]
  unfold Mat4.mul mtranspose Mat4.id
  apply Mat4.ext
  case m11 =>
    dsimp only; field_simp
    first
      | ring1
      | linear_combination (b.x * b.x) * hq
      | linear_combination (-(b.x * b.x)) * hq
      | linear_combination ((b.x * b.x) * (1 + b.w)) * hq
      | linear_combination (-((b.x * b.x) * (1 + b.w))) * hq
  case m12 =>
    dsimp only; field_simp
    first
      | ring1
      | linear_combination (b.x * b.y) * hq
      | linear_combination (-(b.x * b.y)) * hq
      | linear_combination ((b.x * b.y) * (1 + b.w)) * hq
      | linear_combination (-((b.x * b.y) * (1 + b.w))) * hq
  case m13 =>
    dsimp only; field_simp
    first
      | ring1
      | linear_combination (b.x * b.z) * hq
      | linear_combination (-(b.x * b.z)) * hq
      | linear_combination ((b.x * b.z) * (1 + b.w)) * hq
      | linear_combination (-((b.x * b.z) * (1 + b.w))) * hq
  case m14 =>
    dsimp only; field_simp
    first
      | ring1
      | linear_combination (b.x) * hq
      | linear_combination (-(b.x)) * hq
      | linear_combination ((b.x) * b.w) * hq
      | linear_combination (-((b.x) * b.w)) * hq
      | linear_combination ((b.x) * (1 + b.w)) * hq
      | linear_combination (-((b.x) * (1 + b.w))) * hq
      | linear_combination ((b.x) * b.w * (1 + b.w)) * hq
      | linear_combination (-((b.x) * b.w * (1 + b.w))) * hq
      | linear_combination ((b.x) * (1 + b.w) * (1 + b.w)) * hq
      | linear_combination (-((b.x) * (1 + b.w) * (1 + b.w))) * hq
  case m21 =>
    dsimp only; field_simp
    first
      | ring1
      | linear_combination (b.y * b.x) * hq
      | linear_combination (-(b.y * b.x)) * hq
      | linear_combination ((b.y * b.x) * (1 + b.w)) * hq
      | linear_combination (-((b.y * b.x) * (1 + b.w))) * hq
  case m22 =>
    dsimp only; field_simp
    first
      | ring1
      | linear_combination (b.y * b.y) * hq
      | linear_combination (-(b.y * b.y)) * hq
      | linear_combination ((b.y * b.y) * (1 + b.w)) * hq
      | linear_combination (-((b.y * b.y) * (1 + b.w))) * hq
  case m23 =>
    dsimp only; field_simp
    first
      | ring1
      | linear_combination (b.y * b.z) * hq
      | linear_combination (-(b.y * b.z)) * hq
      | linear_combination ((b.y * b.z) * (1 + b.w)) * hq
      | linear_combination (-((b.y * b.z) * (1 + b.w))) * hq
  case m24 =>
    dsimp only; field_simp
    first
      | ring1
      | linear_combination (b.y) * hq
      | linear_combination (-(b.y)) * hq
      | linear_combination ((b.y) * b.w) * hq
      | linear_combination (-((b.y) * b.w)) * hq
      | linear_combination ((b.y) * (1 + b.w)) * hq
      | linear_combination (-((b.y) * (1 + b.w))) * hq
      | linear_combination ((b.y) * b.w * (1 + b.w)) * hq
      | linear_combination (-((b.y) * b.w * (1 + b.w))) * hq
      | linear_combination ((b.y) * (1 + b.w) * (1 + b.w)) * hq
      | linear_combination (-((b.y) * (1 + b.w) * (1 + b.w))) * hq
  case m31 =>
    dsimp only; field_simp
    first
      | ring1
      | linear_combination (b.z * b.x) * hq
      | linear_combination (-(b.z * b.x)) * hq
      | linear_combination ((b.z * b.x) * (1 + b.w)) * hq
      | linear_combination (-((b.z * b.x) * (1 + b.w))) * hq
  case m32 =>
    dsimp only; field_simp
    first
      | ring1
      | linear_combination (b.z * b.y) * hq
      | linear_combination (-(b.z * b.y)) * hq
      | linear_combination ((b.z * b.y) * (1 + b.w)) * hq
      | linear_combination (-((b.z * b.y) * (1 + b.w))) * hq
  case m33 =>
    dsimp only; field_simp
    first
      | ring1
      | linear_combination (b.z * b.z) * hq
      | linear_combination (-(b.z * b.z)) * hq
      | linear_combination ((b.z * b.z) * (1 + b.w)) * hq
      | linear_combination (-((b.z * b.z) * (1 + b.w))) * hq
  case m34 =>
    dsimp only; field_simp
    first
      | ring1
      | linear_combination (b.z) * hq
      | linear_combination (-(b.z)) * hq
      | linear_combination ((b.z) * b.w) * hq
      | linear_combination (-((b.z) * b.w)) * hq
      | linear_combination ((b.z) * (1 + b.w)) * hq
      | linear_combination (-((b.z) * (1 + b.w))) * hq
      | linear_combination ((b.z) * b.w * (1 + b.w)) * hq
      | linear_combination (-((b.z) * b.w * (1 + b.w))) * hq
      | linear_combination ((b.z) * (1 + b.w) * (1 + b.w)) * hq
      | linear_combination (-((b.z) * (1 + b.w) * (1 + b.w))) * hq
  case m41 =>
    dsimp only; field_simp
    first
      | ring1
      | linear_combination (b.x) * hq
      | linear_combination (-(b.x)) * hq
      | linear_combination ((b.x) * b.w) * hq
      | linear_combination (-((b.x) * b.w)) * hq
      | linear_combination ((b.x) * (1 + b.w)) * hq
      | linear_combination (-((b.x) * (1 + b.w))) * hq
      | linear_combination ((b.x) * b.w * (1 + b.w)) * hq
      | linear_combination (-((b.x) * b.w * (1 + b.w))) * hq
      | linear_combination ((b.x) * (1 + b.w) * (1 + b.w)) * hq
      | linear_combination (-((b.x) * (1 + b.w) * (1 + b.w))) * hq
  case m42 =>
    dsimp only; field_simp
    first
      | ring1
      | linear_combination (b.y) * hq
      | linear_combination (-(b.y)) * hq
      | linear_combination ((b.y) * b.w) * hq
      | linear_combination (-((b.y) * b.w)) * hq
      | linear_combination ((b.y) * (1 + b.w)) * hq
      | linear_combination (-((b.y) * (1 + b.w))) * hq
      | linear_combination ((b.y) * b.w * (1 + b.w)) * hq
      | linear_combination (-((b.y) * b.w * (1 + b.w))) * hq
      | linear_combination ((b.y) * (1 + b.w) * (1 + b.w)) * hq
      | linear_combination (-((b.y) * (1 + b.w) * (1 + b.w))) * hq
  case m43 =>
    dsimp only; field_simp
    first
      | ring1
      | linear_combination (b.z) * hq
      | linear_combination (-(b.z)) * hq
      | linear_combination ((b.z) * b.w) * hq
      | linear_combination (-((b.z) * b.w)) * hq
      | linear_combination ((b.z) * (1 + b.w)) * hq
      | linear_combination (-((b.z) * (1 + b.w))) * hq
      | linear_combination ((b.z) * b.w * (1 + b.w)) * hq
      | linear_combination (-((b.z) * b.w * (1 + b.w))) * hq
      | linear_combination ((b.z) * (1 + b.w) * (1 + b.w)) * hq
      | linear_combination (-((b.z) * (1 + b.w) * (1 + b.w))) * hq
  case m44 =>
    dsimp only; field_simp
    first
      | ring1
      | linear_combination (1 : ℚ) * hq
      | linear_combination (-(1 : ℚ)) * hq
      | linear_combination ((1 : ℚ) * b.w) * hq
      | linear_combination (-((1 : ℚ) * b.w)) * hq
      | linear_combination ((1 : ℚ) * (1 + b.w)) * hq
      | linear_combination (-((1 : ℚ) * (1 + b.w))) * hq
      | linear_combination ((1 : ℚ) * b.w * (1 + b.w)) * hq
      | linear_combination (-((1 : ℚ) * b.w * (1 + b.w))) * hq
      | linear_combination ((1 : ℚ) * (1 + b.w) * (1 + b.w)) * hq
      | linear_combination (-((1 : ℚ) * (1 + b.w) * (1 + b.w))) * hq

/-- The transposed boost sends `b` back to the origin. -/
theorem mtranspose_boost_mulVec (b : Vec4) (hb : mip b b = -1)
    (hw : 0 < b.w) :
    Mat4.mulVec (mtranspose (translate origin b)) b = origin := by
  have hs : (1 : ℚ) + b.w ≠ 0 := by linarith
  have hq : b.x * b.x + b.y * b.y + b.z * b.z = b.w * b.w - 1 := by
    unfold mip at hb
    linarith
  rw [translate_origin_eq b hs]
  unfold Mat4.mulVec mtranspose origin
  apply Vec4.ext
  case x =>
    dsimp only; field_simp
    first
      | ring1
      | linear_combination (b.x) * hq
      | linear_combination (-(b.x)) * hq
      | linear_combination ((b.x) * b.w) * hq
      | linear_combination (-((b.x) * b.w)) * hq
      | linear_combination ((b.x) * (1 + b.w)) * hq
      | linear_combination (-((b.x) * (1 + b.w))) * hq
      | linear_combination ((b.x) * b.w * (1 + b.w)) * hq
      | linear_combination (-((b.x) * b.w * (1 + b.w))) * hq
      | linear_combination ((b.x) * (1 + b.w) * (1 + b.w)) * hq
      | linear_combination (-((b.x) * (1 + b.w) * (1 + b.w))) * hq
  case y =>
    dsimp only; field_simp
    first
      | ring1
      | linear_combination (b.y) * hq
      | linear_combination (-(b.y)) * hq
      | linear_combination ((b.y) * b.w) * hq
      | linear_combination (-((b.y) * b.w)) * hq
      | linear_combination ((b.y) * (1 + b.w)) * hq
      | linear_combination (-((b.y) * (1 + b.w))) * hq
      | linear_combination ((b.y) * b.w * (1 + b.w)) * hq
      | linear_combination (-((b.y) * b.w * (1 + b.w))) * hq
      | linear_combination ((b.y) * (1 + b.w) * (1 + b.w)) * hq
      | linear_combination (-((b.y) * (1 + b.w) * (1 + b.w))) * hq
  case z =>
    dsimp only; field_simp
    first
      | ring1
      | linear_combination (b.z) * hq
      | linear_combination (-(b.z)) * hq
      | linear_combination ((b.z) * b.w) * hq
      | linear_combination (-((b.z) * b.w)) * hq
      | linear_combination ((b.z) * (1 + b.w)) * hq
      | linear_combination (-((b.z) * (1 + b.w))) * hq
      | linear_combination ((b.z) * b.w * (1 + b.w)) * hq
      | linear_combination (-((b.z) * b.w * (1 + b.w))) * hq
      | linear_combination ((b.z) * (1 + b.w) * (1 + b.w)) * hq
      | linear_combination (-((b.z) * (1 + b.w) * (1 + b.w))) * hq
  case w =>
    dsimp only; field_simp
    first
      | ring1
      | linear_combination (1 : ℚ) * hq
      | linear_combination (-(1 : ℚ)) * hq
      | linear_combination ((1 : ℚ) * b.w) * hq
      | linear_combination (-((1 : ℚ) * b.w)) * hq
      | linear_combination ((1 : ℚ) * (1 + b.w)) * hq
      | linear_combination (-((1 : ℚ) * (1 + b.w))) * hq
      | linear_combination ((1 : ℚ) * b.w * (1 + b.w)) * hq
      | linear_combination (-((1 : ℚ) * b.w * (1 + b.w))) * hq
      | linear_combination ((1 : ℚ) * (1 + b.w) * (1 + b.w)) * hq
      | linear_combination (-((1 : ℚ) * (1 + b.w) * (1 + b.w))) * hq

end

/-- 4×4 product is associative. -/
theorem Mat4.mul_assoc4 (A B C : Mat4) :
    (A.mul B).mul C = A.mul (B.mul C) := by
  unfold Mat4.mul
  apply Mat4.ext <;> (dsimp only; ring)

/-- Left identity for the 4×4 product. -/
theorem Mat4.id_mul4 (A : Mat4) : Mat4.mul Mat4.id A = A := by
  unfold Mat4.mul Mat4.id
  apply Mat4.ext <;> (dsimp only; ring)

/-- The Minkowski transpose is an anti-homomorphism of the product. -/
theorem mtranspose_mul4 (A B : Mat4) :
    mtranspose (Mat4.mul A B) = Mat4.mul (mtranspose B) (mtranspose A) := by
  unfold mtranspose Mat4.mul
  apply Mat4.ext <;> (dsimp only; ring)

/-- The Minkowski transpose is an involution. -/
theorem mtranspose_invol (A : Mat4) : mtranspose (mtranspose A) = A := by
  unfold mtranspose
  apply Mat4.ext <;> (dsimp only; try ring)

/-- The fourth column of a product is the product acting on the fourth
column. -/
theorem col3_mul4 (A B : Mat4) :
    (Mat4.mul A B).col3 = Mat4.mulVec A B.col3 := by
  unfold Mat4.mul Mat4.mulVec Mat4.col3
  apply Vec4.ext <;> (dsimp only; try ring)

/-- 3×3 product is associative. -/
theorem Mat3.mul_assoc3 (A B C : Mat3) :
    (A.mul B).mul C = A.mul (B.mul C) := by
  unfold Mat3.mul
  apply Mat3.ext <;> (dsimp only; ring)

/-- Left identity for the 3×3 product. -/
theorem Mat3.id3_mul (A : Mat3) : Mat3.mul Mat3.id3 A = A := by
  unfold Mat3.mul Mat3.id3
  apply Mat3.ext <;> (dsimp only; ring)

/-- The fundamental adjugate identity `A * adj A = det A • I`. -/
theorem Mat3.mul_adj3 (A : Mat3) :
    Mat3.mul A (Mat3.adj A) = Mat3.smul3 (Mat3.det A) Mat3.id3 := by
  unfold Mat3.mul Mat3.adj Mat3.smul3 Mat3.id3 Mat3.det
  apply Mat3.ext <;> (dsimp only; ring)

/-- Right multiplication by a scalar multiple of the identity. -/
theorem Mat3.mul_smul_id3 (A : Mat3) (c : ℚ) :
    Mat3.mul A (Mat3.smul3 c Mat3.id3) = Mat3.smul3 c A := by
  unfold Mat3.mul Mat3.smul3 Mat3.id3
  apply Mat3.ext <;> (dsimp only; ring)

/-- The determinant is invariant under transposition. -/
theorem Mat3.det_transpose3 (A : Mat3) :
    Mat3.det (Mat3.transpose A) = Mat3.det A := by
  unfold Mat3.det Mat3.transpose
  dsimp only; ring

/-- The determinant is multiplicative. -/
theorem Mat3.det_mul3 (A B : Mat3) :
    Mat3.det (Mat3.mul A B) = Mat3.det A * Mat3.det B := by
  unfold Mat3.det Mat3.mul
  dsimp only; ring

/-- The image of the origin under an isometry is Lorentz-normalized. -/
theorem mip_col3_isometry (m : Mat4)
    (h : Mat4.mul (mtranspose m) m = Mat4.id) :
    mip m.col3 m.col3 = -1 := by
  have e := congrArg Mat4.m44 h
  simp only [Mat4.mul, mtranspose, Mat4.id] at e
  unfold mip Mat4.col3
  dsimp only
  linarith

/-- An isometry whose fourth column is the origin has vanishing fourth row
(off the diagonal) and an orthogonal upper-left 3×3 block. -/
theorem iso_block (g : Mat4)
    (hg : Mat4.mul (mtranspose g) g = Mat4.id) (hcol : g.col3 = origin) :
    g.m41 = 0 ∧ g.m42 = 0 ∧ g.m43 = 0 ∧
      Mat3.mul (Mat3.transpose g.upper3x3) g.upper3x3 = Mat3.id3 := by
  simp only [Mat4.col3, origin, Vec4.mk.injEq] at hcol
  obtain ⟨h14, h24, h34, h44⟩ := hcol
  simp only [Mat4.mul, mtranspose, Mat4.id, Mat4.mk.injEq] at hg
  obtain ⟨e11, e12, e13, e14, e21, e22, e23, e24, e31, e32, e33, e34,
    e41, e42, e43, e44⟩ := hg
  have h41 : g.m41 = 0 := by
    rw [h14, h24, h34, h44] at e14
    linarith
  have h42 : g.m42 = 0 := by
    rw [h14, h24, h34, h44] at e24
    linarith
  have h43 : g.m43 = 0 := by
    rw [h14, h24, h34, h44] at e34
    linarith
  refine ⟨h41, h42, h43, ?_⟩
  unfold Mat3.mul Mat3.transpose Mat3.id3 Mat4.upper3x3
  apply Mat3.ext <;> dsimp only
  case m11 =>
    rw [h41] at e11
    linarith
  case m12 =>
    rw [h41, h42] at e12
    linarith
  case m13 =>
    rw [h41, h43] at e13
    linarith
  case m21 =>
    rw [h41, h42] at e21
    linarith
  case m22 =>
    rw [h42] at e22
    linarith
  case m23 =>
    rw [h42, h43] at e23
    linarith
  case m31 =>
    rw [h41, h43] at e31
    linarith
  case m32 =>
    rw [h42, h43] at e32
    linarith
  case m33 =>
    rw [h43] at e33
    linarith

/-- `renormalize_rotation_reflection` fixes matrices with orthonormal
columns, given a square-root oracle exact at 1. -/
theorem rrr_fix (sq : ℚ → ℚ) (hsq : sq 1 = 1) (R : Mat3)
    (hR : Mat3.mul (Mat3.transpose R) R = Mat3.id3) :
    renormalize_rotation_reflection sq R = R := by
  have hd2 : Mat3.det R * Mat3.det R = 1 := by
    have e := congrArg Mat3.det hR
    rw [Mat3.det_mul3, Mat3.det_transpose3] at e
    rw [e]
    norm_num [Mat3.det, Mat3.id3]
  have hadj : Mat3.adj R = Mat3.smul3 (Mat3.det R) (Mat3.transpose R) := by
    calc Mat3.adj R = Mat3.mul Mat3.id3 (Mat3.adj R) :=
          (Mat3.id3_mul _).symm
      _ = Mat3.mul (Mat3.mul (Mat3.transpose R) R) (Mat3.adj R) := by
          rw [hR]
      _ = Mat3.mul (Mat3.transpose R) (Mat3.mul R (Mat3.adj R)) :=
          Mat3.mul_assoc3 _ _ _
      _ = Mat3.mul (Mat3.transpose R)
            (Mat3.smul3 (Mat3.det R) Mat3.id3) := by
          rw [Mat3.mul_adj3]
      _ = Mat3.smul3 (Mat3.det R) (Mat3.transpose R) :=
          Mat3.mul_smul_id3 _ _
  have hsign : signum (Mat3.det R) * Mat3.det R = 1 := by
    have hcases : (Mat3.det R - 1) * (Mat3.det R + 1) = 0 := by
      linear_combination hd2
    rcases mul_eq_zero.mp hcases with h | h
    · have h1 : Mat3.det R = 1 := by linarith
      rw [h1]
      norm_num [signum]
    · have h1 : Mat3.det R = -1 := by linarith
      rw [h1]
      norm_num [signum]
  simp only [Mat3.mul, Mat3.transpose, Mat3.id3, Mat3.mk.injEq] at hR
  obtain ⟨f11, f12, f13, f21, f22, f23, f31, f32, f33⟩ := hR
  simp only [Mat3.adj, Mat3.smul3, Mat3.transpose, Mat3.mk.injEq] at hadj
  obtain ⟨a11, a12, a13, a21, a22, a23, a31, a32, a33⟩ := hadj
  have hzv : Vec3.normalize sq (Mat3.col2 R) = Mat3.col2 R := by
    unfold Vec3.normalize Mat3.col2
    dsimp only
    have harg : R.m13 ^ 2 + R.m23 ^ 2 + R.m33 ^ 2 = 1 := by
      linear_combination f33
    rw [harg, hsq, inv_one]
    unfold Vec3.smul
    apply Vec3.ext <;> (dsimp only; ring)
  have hdot : Vec3.dot (Mat3.col2 R) (Mat3.col1 R) = 0 := by
    unfold Vec3.dot Mat3.col2 Mat3.col1
    dsimp only
    linear_combination f32
  have hyv : Vec3.normalize sq (Mat3.col1 R) = Mat3.col1 R := by
    unfold Vec3.normalize Mat3.col1
    dsimp only
    have harg : R.m12 ^ 2 + R.m22 ^ 2 + R.m32 ^ 2 = 1 := by
      linear_combination f22
    rw [harg, hsq, inv_one]
    unfold Vec3.smul
    apply Vec3.ext <;> (dsimp only; ring)
  simp only [renormalize_rotation_reflection]
  rw [hzv, hdot]
  simp only [zero_mul, sub_zero]
  rw [show Vec3.mk (Mat3.col1 R).x (Mat3.col1 R).y (Mat3.col1 R).z
      = Mat3.col1 R from rfl]
  rw [hyv]
  unfold Mat3.col1 Mat3.col2
  apply Mat3.ext <;> dsimp only
  case m11 =>
    linear_combination R.m11 * hsign + signum (Mat3.det R) * a11
  case m21 =>
    linear_combination R.m21 * hsign + signum (Mat3.det R) * a12
  case m31 =>
    linear_combination R.m31 * hsign + signum (Mat3.det R) * a13
  all_goals rfl

/-- `renormalize_isometry` is exactly the identity on valid isometries,
given a square-root oracle exact at 1. -/
theorem renormalize_isometry_eq (sq : ℚ → ℚ) (hsq : sq 1 = 1) (m : Mat4)
    (hm : IsIsometry m) : renormalize_isometry sq m = m := by
  obtain ⟨hI, hw⟩ := hm
  have hb : mip m.col3 m.col3 = -1 := mip_col3_isometry m hI
  have hwb : 0 < (Mat4.col3 m).w := by
    unfold Mat4.col3
    dsimp only
    exact hw
  have hB := boost_mul_mtranspose m.col3 hb hwb
  have hC := mtranspose_boost_mulVec m.col3 hb hwb
  have hgcol :
      (Mat4.mul (mtranspose (translate origin m.col3)) m).col3 = origin := by
    rw [col3_mul4]
    exact hC
  have hgiso :
      Mat4.mul (mtranspose (Mat4.mul (mtranspose (translate origin m.col3)) m))
        (Mat4.mul (mtranspose (translate origin m.col3)) m) = Mat4.id := by
    rw [mtranspose_mul4, mtranspose_invol, Mat4.mul_assoc4,
      ← Mat4.mul_assoc4 (translate origin m.col3)
        (mtranspose (translate origin m.col3)) m,
      hB, Mat4.id_mul4, hI]
  obtain ⟨h41, h42, h43, hblock⟩ := iso_block _ hgiso hgcol
  have hfix := rrr_fix sq hsq _ hblock
  have hhomog :
      Mat3.toHomogeneous
          ((Mat4.mul (mtranspose (translate origin m.col3)) m).upper3x3)
        = Mat4.mul (mtranspose (translate origin m.col3)) m := by
    have hc := hgcol
    simp only [Mat4.col3, origin, Vec4.mk.injEq] at hc
    obtain ⟨c14, c24, c34, c44⟩ := hc
    unfold Mat3.toHomogeneous Mat4.upper3x3
    apply Mat4.ext <;> dsimp only
    case m14 => exact c14.symm
    case m24 => exact c24.symm
    case m34 => exact c34.symm
    case m44 => exact c44.symm
    case m41 => exact h41.symm
    case m42 => exact h42.symm
    case m43 => exact h43.symm
    all_goals rfl
  simp only [renormalize_isometry]
  rw [hfix, hhomog, ← Mat4.mul_assoc4, hB, Mat4.id_mul4]

/-- C5: `renormalize_isometry` is near-idempotent on valid isometries: for
every 4×4 matrix `m` that is already a valid hyperbolic isometry (preserves
the Minkowski form and the future sheet), every entry of
`renormalize_isometry m` differs from the corresponding entry of `m` by at
most 1e-5.  In the exact-arithmetic embedding (square-root oracle exact at
1, the only value it is queried at on this input class) the map is exactly
the identity, so the bound holds with slack. -/
theorem claim_C5_renormalize_near_idempotent (sq : ℚ → ℚ) (hsq : sq 1 = 1)
    (m : Mat4) (hm : IsIsometry m) (i j : Fin 4) :
    |Mat4.get (renormalize_isometry sq m) i j - Mat4.get m i j|
      ≤ 1 / 100000 := by
  rw [renormalize_isometry_eq sq hsq m hm]
  simp

theorem claim_C5_renormalize_near_idempotent_witness :
    ((fun _ : ℚ => (1 : ℚ)) 1 = 1 ∧ IsIsometry Mat4.id) ∧
      |Mat4.get (renormalize_isometry (fun _ : ℚ => 1) Mat4.id) 0 0
          - Mat4.get Mat4.id 0 0| ≤ 1 / 100000 := by
  have hiso : IsIsometry Mat4.id := by
    constructor
    · apply Mat4.ext <;> norm_num [Mat4.mul, mtranspose, Mat4.id]
    · norm_num [Mat4.id]
  exact ⟨⟨rfl, hiso⟩,
    claim_C5_renormalize_near_idempotent (fun _ => 1) rfl Mat4.id hiso 0 0⟩

/-- C6: with `no_clip = true`, one character-controller step overwrites the
velocity with the clamped movement times the fixed no-clip speed,
multiplies `position.local` by exactly the translation along
`velocity * dt`, and makes zero calls into `sphere_cast` (no collision
check).  Stated under the system invariants that the updated local
transform is a valid isometry (so the trailing renormalization is exact)
and that the step does not cross a node boundary (so no rebase composes
onto the local transform). -/
theorem claim_C6_no_clip_step (sq srt ch shc : ℚ → ℚ)
    (normalize_transform : NodeId → Mat4 → NodeId × Mat4)
    (elseBranch : Position → Vec3 → Bool → Vec3 →
      (Position × Vec3 × Bool) × Nat)
    (cfg : SimCfg) (pos : Position) (vel : Vec3) (onGround : Bool)
    (input : CharacterInput) (dt : ℚ)
    (hnc : input.no_clip = true)
    (hsq : sq 1 = 1)
    (hval : IsIsometry (Mat4.mul pos.«local»
      (translate_along srt ch shc (Vec3.smul dt
        (Vec3.smul cfg.no_clip_movement_speed
          (sanitize_motion_input sq input.movement))))))
    (hstay : (normalize_transform pos.node
      (Mat4.mul pos.«local» (translate_along srt ch shc (Vec3.smul dt
        (Vec3.smul cfg.no_clip_movement_speed
          (sanitize_motion_input sq input.movement)))))).1 = pos.node) :
    run_character_step sq srt ch shc normalize_transform elseBranch cfg pos
        vel onGround input dt
      = ((Position.mk pos.node
            (Mat4.mul pos.«local» (translate_along srt ch shc (Vec3.smul dt
              (Vec3.smul cfg.no_clip_movement_speed
                (sanitize_motion_input sq input.movement))))),
          Vec3.smul cfg.no_clip_movement_speed
            (sanitize_motion_input sq input.movement), onGround), 0) := by
  simp only [run_character_step, hnc, if_true]
  rw [renormalize_isometry_eq sq hsq _ hval]
  simp [hstay]

theorem claim_C6_no_clip_step_witness :
    (cc_input.no_clip = true ∧ cc_sq 1 = 1 ∧
      IsIsometry (Mat4.mul cc_pos.«local»
        (translate_along cc_srt cc_ch cc_ch (Vec3.smul 1
          (Vec3.smul 2 (sanitize_motion_input cc_sq cc_input.movement))))) ∧
      (cc_nt cc_pos.node
        (Mat4.mul cc_pos.«local» (translate_along cc_srt cc_ch cc_ch
          (Vec3.smul 1 (Vec3.smul 2
            (sanitize_motion_input cc_sq cc_input.movement)))))).1
        = cc_pos.node) ∧
    run_character_step cc_sq cc_srt cc_ch cc_ch cc_nt cc_else ⟨2⟩ cc_pos
        ⟨0, 0, 0⟩ false cc_input 1
      = ((Position.mk cc_pos.node
            (Mat4.mul cc_pos.«local» (translate_along cc_srt cc_ch cc_ch
              (Vec3.smul 1 (Vec3.smul 2
                (sanitize_motion_input cc_sq cc_input.movement))))),
          Vec3.smul 2 (sanitize_motion_input cc_sq cc_input.movement),
          false), 0) := by
  have hT : translate_along cc_srt cc_ch cc_ch (Vec3.smul 1
      (Vec3.smul 2 (sanitize_motion_input cc_sq cc_input.movement)))
      = Mat4.id := by
    norm_num [translate_along, sanitize_motion_input, Vec3.smul, cc_srt,
      cc_sq, cc_input]
  have hv : IsIsometry (Mat4.mul cc_pos.«local»
      (translate_along cc_srt cc_ch cc_ch (Vec3.smul 1
        (Vec3.smul 2 (sanitize_motion_input cc_sq cc_input.movement))))) := by
    rw [show cc_pos.«local» = Mat4.id from rfl, hT]
    constructor
    · apply Mat4.ext <;> norm_num [Mat4.mul, mtranspose, Mat4.id]
    · norm_num [Mat4.mul, Mat4.id]
  exact ⟨⟨rfl, rfl, hv, rfl⟩,
    claim_C6_no_clip_step cc_sq cc_srt cc_ch cc_ch cc_nt cc_else ⟨2⟩ cc_pos
      ⟨0, 0, 0⟩ false cc_input 1 rfl rfl hv rfl⟩

/-- Invariant of the breadth-first loop: when every per-chunk cast result
lies within its bound, any hit carried by the state (and hence any hit
returned) lies within `tanh_distance`. -/
theorem castLoop_hit_le {M N : Type} (D : Dodeca) (geom : CastGeom M N)
    (g : Graph) (t : ℚ)
    (Hchunk : ∀ v vert m b r n, geom.chunkCast v vert m b = some (r, n) →
      r ≤ b) :
    ∀ (fuel : Nat) (s : CastState M N),
      (∀ h, s.hit = some h → h.tanh_distance ≤ t) →
      ∀ hit, castLoop D geom g t fuel s = some (.ok (some hit)) →
        hit.tanh_distance ≤ t := by
  intro fuel
  induction fuel with
  | zero =>
    intro s _ hit hres
    simp [castLoop] at hres
  | succ n ih =>
    intro s hinv hit hres
    rw [castLoop] at hres
    cases hq : s.queue with
    | nil =>
      simp only [hq] at hres
      have : s.hit = some hit := by
        simpa using hres
      exact hinv hit this
    | cons head rest =>
      obtain ⟨chunk, m⟩ := head
      simp only [hq] at hres
      cases hchunk : g.get_chunk chunk with
      | none =>
        simp only [hchunk] at hres
        cases hres
      | some c =>
        cases c with
        | Fresh =>
          simp only [hchunk] at hres
          cases hres
        | Generating =>
          simp only [hchunk] at hres
          cases hres
        | Populated voxels modified surface old_surface =>
          simp only [hchunk] at hres
          cases hax : axisLoop D geom g chunk m (currentOf s t) [0, 1, 2]
              s.visited rest with
          | none =>
            simp only [hax] at hres
            cases hres
          | some vq =>
            simp only [hax] at hres
            refine ih _ ?_ hit hres
            intro h hh
            have hcur : currentOf s t ≤ t := by
              unfold currentOf
              cases hs : s.hit with
              | none => exact le_refl t
              | some h0 => exact hinv h0 hs
            unfold updatedHit at hh
            cases hcast : geom.chunkCast voxels chunk.vertex m
                (currentOf s t) with
            | none =>
              simp only [hcast] at hh
              exact hinv h hh
            | some rn =>
              obtain ⟨r, nn⟩ := rn
              simp only [hcast] at hh
              cases hh
              exact le_trans (Hchunk _ _ _ _ _ _ hcast) hcur

/-- C1 (amended): `sphere_cast` is not monotonic in `tanh_distance` in the
claimed sense — widening the bound can push the traversal into an unloaded
neighbor and fail with `Err(OutOfBounds)` where the narrower call returned
`Ok(Some(hit))` (see the counterexample) — but any hit it does return lies
within the requested bound: whenever every per-chunk cast result is within
its bound, an `Ok(Some(hit))` result has `hit.tanh_distance ≤
tanh_distance`. -/
theorem claim_C1_sphere_cast_hit_within_bound {M N : Type} (D : Dodeca)
    (geom : CastGeom M N) (g : Graph) (fuel : Nat) (pos_node : NodeId)
    (pos_local : M) (tanh_distance : ℚ)
    (Hchunk : ∀ v vert m b r n, geom.chunkCast v vert m b = some (r, n) →
      r ≤ b)
    (hit : GraphCastHit N)
    (hres : sphere_cast D geom g fuel pos_node pos_local tanh_distance
      = some (.ok (some hit))) :
    hit.tanh_distance ≤ tanh_distance := by
  refine castLoop_hit_le D geom g tanh_distance Hchunk fuel _ ?_ hit hres
  intro h hh
  simp [initCastState] at hh

theorem claim_C1_sphere_cast_hit_within_bound_witness :
    (∀ (v : VoxelData) (vert : Vertex) (m : Unit) (b r : ℚ) (n : Unit),
        geomW.chunkCast v vert m b = some (r, n) → r ≤ b) ∧
      sphere_cast D0 geomW g0 2 0 () 1
          = some (.ok (some ⟨1, ⟨0, vertexA⟩, ()⟩)) ∧
      (GraphCastHit.mk 1 ⟨0, vertexA⟩ () : GraphCastHit Unit).tanh_distance
        ≤ 1 := by
  have hch : ∀ (v : VoxelData) (vert : Vertex) (m : Unit) (b r : ℚ)
      (n : Unit), geomW.chunkCast v vert m b = some (r, n) → r ≤ b := by
    intro v vert m b r n h
    simp only [geomW, Option.some.injEq, Prod.mk.injEq] at h
    exact le_of_eq h.1.symm
  have hres : sphere_cast D0 geomW g0 2 0 () 1
      = some (.ok (some ⟨1, ⟨0, vertexA⟩, ()⟩)) := by
    rfl
  exact ⟨hch, hres,
    claim_C1_sphere_cast_hit_within_bound D0 geomW g0 2 0 () 1 hch _ hres⟩

/-- C1 is refuted as stated: on a graph with an unloaded neighbor, the call
with `tanh_distance = 1` returns `Ok(Some(hit))` at distance 1, yet the
call with the larger `tanh_distance = 2` (all other arguments equal)
returns `Err(OutOfBounds)` instead of a hit at distance at most 1. -/
theorem claim_C1_sphere_cast_monotonic_cex :
    (1 : ℚ) ≤ 2 ∧
      sphere_cast D0 geomC g0 2 0 () 1
        = some (.ok (some ⟨1, ⟨0, vertexA⟩, ()⟩)) ∧
      sphere_cast D0 geomC g0 2 0 () 2
        = some (.error .OutOfBounds) := by
  refine ⟨by norm_num, ?_, ?_⟩ <;> rfl

end Hypermine
